import Mathlib

/-!
gossdb: the SSDB client's frame codec, reply classification, reconnection, pool and fan-out

A shallow embedding of `ssdb/ssdb.go` and `ssdb/ssdb-unix.go`.

* A Go `string` / `[]byte` is a list of byte values (`List Nat`, each value below 256 in
  every concrete input used here).
* A Go `[]string` that may be `nil` is an `Option (List Field)`: `none` is the nil slice,
  `some []` the empty non-nil slice.
* Go `int` is taken to be 64 bits wide; sums that can leave that range are wrapped.
* A run-time panic (index or slice bounds out of range, nil dereference) is an explicit
  outcome, as is a `Read` on which the caller waits forever.
* The socket is a script: the results of its coming `Read` calls and the result of `Write`.
  The mutexes are left out: every function is followed on its own goroutine.
* `encoding/base64`, `compress/gzip` and `strconv.Quote` are parameters (`Lib`).
* Goroutines are followed one step at a time: the `RetryConnect` goroutines of a client are
  a list of tasks moved by events (`Conn.step`), and the workers of `MultiHashSet`, which
  share nothing, are run one after the other.
-/

namespace Ssdb

/-! ## Bytes and text -/

/-- A Go `string`: an immutable byte sequence, each byte given by its value. -/
abbrev Field := List Nat

/-- The bytes of an ASCII text. -/
def text (s : String) : Field := s.toList.map Char.toNat

/-- The newline byte, written in the source as the rune literal for line feed. -/
def nl : Nat := 10

/-- The carriage-return byte. -/
def cr : Nat := 13

/-- Go `bytes.IndexByte(b, c)`: index of the first `c` in `b`, `none` for `-1`. -/
def indexByte : List Nat → Nat → Option Nat
  | [], _ => none
  | b :: bs, c => if b = c then some 0 else (indexByte bs c).map (· + 1)

/-- Go `strings.Contains(s, sub)`. -/
def contains : Field → Field → Bool
  | [], sub => sub.isEmpty
  | b :: bs, sub => sub.isPrefixOf (b :: bs) || contains bs sub

/-! ## Go integers -/

/-- Largest value of a 64-bit Go `int`. -/
def maxInt : Int := 9223372036854775807

/-- Smallest value of a 64-bit Go `int`. -/
def minInt : Int := -9223372036854775808

/-- Two-complement wrap-around of 64-bit `int` arithmetic. -/
def wrapInt (x : Int) : Int := (x + 9223372036854775808) % 18446744073709551616 - 9223372036854775808

/-- Decimal digits of `n`, most significant first; `fuel` bounds the number of digits. -/
def decimalDigits : Nat → Nat → List Nat
  | 0, _ => []
  | fuel + 1, n =>
    if n < 10 then [48 + n] else decimalDigits fuel (n / 10) ++ [48 + n % 10]

/-- Go `fmt.Sprintf("%d", n)` for a non-negative `n`. -/
def formatNat (n : Nat) : Field := decimalDigits (n + 1) n

/-- Go `fmt.Sprintf("%d", i)` for an `int` or `int64`. -/
def formatInt (i : Int) : Field :=
  if i < 0 then 45 :: formatNat i.natAbs else formatNat i.natAbs

/-- Value of a run of ASCII decimal digits continuing the value `acc`; `none` when a byte is
not a digit. -/
def digitsValue : List Nat → Nat → Option Nat
  | [], acc => some acc
  | b :: bs, acc => if 48 ≤ b ∧ b ≤ 57 then digitsValue bs (acc * 10 + (b - 48)) else none

/-- The syntax accepted by Go `strconv.Atoi` and by `strconv.ParseInt(s, 10, _)`: an optional
sign followed by at least one decimal digit. The result is the mathematical value, `none` on a
syntax error. -/
def parseDecimal : Field → Option Int
  | [] => none
  | b :: bs =>
    if b = 45 then
      if bs = [] then none else (digitsValue bs 0).map (fun n => - (n : Int))
    else if b = 43 then
      if bs = [] then none else (digitsValue bs 0).map (fun n => (n : Int))
    else (digitsValue (b :: bs) 0).map (fun n => (n : Int))

/-- Go `strconv.Atoi(s)`: `none` stands for a non-nil error (syntax, or value out of the range
of `int`). -/
def Atoi (s : Field) : Option Int :=
  match parseDecimal s with
  | none => none
  | some v => if minInt ≤ v ∧ v ≤ maxInt then some v else none

/-! ## The decoder: `parse` -/

/-- Outcome of a call: it returns an `α`, it panics, or it never returns. A call never
returns when it waits on a `Read` that the socket does not answer; a loop that is cut off by
its iteration bound is counted as never returning too, and `parse_ne_blocked` and
`UnZip_ne_blocked` show that this does not happen. -/
inductive Outcome (α : Type) where
  | ret (a : α)
  | panic
  | blocked
  deriving DecidableEq, Repr

/-- The `for` loop of `parse` (ssdb.go 614-645) over the unread bytes `buf`, at `offset` with
the fields `resp` read so far: the returned slice together with the argument of
`c.recv_buf.Next` (0 when `Next` is not called), or a panic (slice bounds out of range).
Every iteration moves `offset` forward, so `buf.length + 1` iterations are enough; `fuel`
counts them. -/
def parseLoop : Nat → List Nat → Nat → List Field → Outcome (Option (List Field) × Nat)
  | 0, _, _, _ => .blocked
  | fuel + 1, buf, offset, resp =>
    match indexByte (buf.drop offset) nl with
    | none => .ret (some [], 0)
    | some idx =>
      let p := (buf.drop offset).take idx
      let offset := offset + idx + 1
      if p.length = 0 ∨ (p.length = 1 ∧ p.head? = some cr) then
        if resp.length = 0 then parseLoop fuel buf offset resp
        else .ret (some resp, offset)
      else
        match Atoi p with
        | none => .ret (none, 0)
        | some size =>
          if size < 0 then .ret (none, 0)
          else
            let hi := wrapInt ((offset : Int) + size)
            if hi ≥ (buf.length : Int) then .ret (some [], 0)
            else if hi < (offset : Int) then .panic
            else
              let v := (buf.drop offset).take size.toNat
              parseLoop fuel buf (offset + size.toNat + 1) (resp ++ [v])

/-- Go `(c *Client) parse()` and `(c *UnixClient) parse()` (the same text) on the unread
bytes `buf` of `c.recv_buf`: the returned slice and the unread bytes afterwards. -/
def parse (buf : List Nat) : Outcome (Option (List Field) × List Nat) :=
  match parseLoop (buf.length + 1) buf 0 [] with
  | .ret (resp, consumed) => .ret (resp, buf.drop consumed)
  | .panic => .panic
  | .blocked => .blocked

/-! ## The encoder: `send` -/

/-- A Go `error` value. -/
inductive GoError where
  /-- The value `io.EOF`. -/
  | eof
  /-- Any other error handed back by the socket or by `encoding/base64`, with its text. -/
  | io (msg : Field)
  /-- The value of `fmt.Errorf("bad arguments")`. -/
  | badArguments
  /-- The value of `fmt.Errorf("bad response:%v", resp)`. -/
  | badResponse (resp : List Field)
  /-- The value of `fmt.Errorf("lost connection")`. -/
  | lostConnection
  /-- A `*strconv.NumError` of `ParseInt` on `s`; `range` tells a range error from a syntax
  error. -/
  | numError (s : Field) (range : Bool)
  deriving DecidableEq, Repr

/-- One element of the `args []interface{}` of `send`, by dynamic type. A `float64` is
carried as the text `fmt.Sprintf("%f", arg)` prints for it. -/
inductive Value where
  | str (s : Field)
  | bytes (b : List Nat)
  | strs (l : List Field)
  | int (i : Int)
  | int64 (i : Int)
  | float64 (fixed : Field)
  | bool (b : Bool)
  | nil
  /-- A value of any other dynamic type (the `default:` case). -/
  | other
  deriving DecidableEq, Repr

/-- The three ways the type switch of `send` treats an argument. -/
inductive ArgCase where
  /-- The argument sets `s`, written after the switch. -/
  | one (s : Field)
  /-- A `[]string`: each element is written inside the switch, then `continue`. -/
  | many (l : List Field)
  /-- The `default:` case: `return fmt.Errorf("bad arguments")`. -/
  | bad
  deriving DecidableEq, Repr

/-- The type switch of `send` (ssdb.go 535-564). -/
def argCase : Value → ArgCase
  | .str s => .one s
  | .bytes b => .one b
  | .strs l => .many l
  | .int i => .one (formatInt i)
  | .int64 i => .one (formatInt i)
  | .float64 fixed => .one fixed
  | .bool b => .one (if b then text ("1") else text ("0"))
  | .nil => .one []
  | .other => .bad

/-- The four writes `WriteString(Sprintf("%d", len(s))); WriteByte; WriteString(s); WriteByte`
appended to the local buffer `buf`. -/
def writeBlock (buf : List Nat) (s : Field) : List Nat :=
  buf ++ formatNat s.length ++ [nl] ++ s ++ [nl]

/-- The `for _, arg := range args` loop of `send` on the local buffer `buf`: the buffer after
the loop, or the error of the early return. -/
def sendLoop : List Value → List Nat → Except GoError (List Nat)
  | [], buf => .ok buf
  | arg :: rest, buf =>
    match argCase arg with
    | .one s => sendLoop rest (writeBlock buf s)
    | .many l => sendLoop rest (l.foldl writeBlock buf)
    | .bad => .error .badArguments

/-- The result of one `c.sock.Read(tmp)` call. -/
inductive ReadResult where
  /-- The call copies `bs` into `tmp` and returns `len(bs), nil`. -/
  | data (bs : List Nat)
  /-- The call returns a non-nil error. -/
  | err (e : GoError)
  deriving DecidableEq, Repr

/-- The socket `c.sock`, as a script of what it does: the results of its coming `Read` calls,
the result of a `Write` call, and the record of what was passed to `Write`. -/
structure Sock where
  /-- Results of the `Read` calls still to come; when none is left a `Read` never returns. -/
  reads : List ReadResult
  /-- The error every `Write` returns (`none` for nil). -/
  writeErr : Option GoError
  /-- The arguments of the `Write` calls made so far, in order. -/
  writes : List (List Nat)
  /-- Whether `Close` has been called. -/
  closed : Bool
  deriving DecidableEq, Repr

/-- Go `(c *Client) send(args)` and `(c *UnixClient) send(args)` (the same text) on the
socket `sock`: the returned error and the socket afterwards. -/
def send (sock : Sock) (args : List Value) : Option GoError × Sock :=
  match sendLoop args [] with
  | .error e => (some e, sock)
  | .ok buf => (sock.writeErr, { sock with writes := sock.writes ++ [buf ++ [nl]] })

/-! ## Compressed replies: `UnZip` -/

/-- What `gzip.NewReader` followed by `ioutil.ReadAll` does on the compressed bytes. -/
inductive GzipResult where
  /-- `NewReader` fails: `zipReader` is nil and `ReadAll` dereferences it. -/
  | headerErr
  /-- `ReadAll` returns an error. -/
  | readErr
  /-- `ReadAll` returns the decompressed bytes. -/
  | data (bs : List Nat)
  deriving DecidableEq, Repr

/-- The library functions the client calls and this development does not implement. -/
structure Lib where
  /-- The function `base64.StdEncoding.DecodeString`. -/
  DecodeString : Field → Except GoError (List Nat)
  /-- The functions `gzip.NewReader` and `ioutil.ReadAll` in sequence. -/
  gunzip : List Nat → GzipResult
  /-- The function `strconv.Quote`. -/
  Quote : Field → Field

/-- Go `append(resp, s)` on a `[]string` that may be nil. -/
def appendField (resp : Option (List Field)) (s : Field) : Option (List Field) :=
  some (resp.getD [] ++ [s])

/-- The fields of a `[]string`; the nil slice has none. -/
def fields (resp : Option (List Field)) : List Field := resp.getD []

/-- The `for` loop of `UnZip` (ssdb.go 671-690) on the remaining `zipData`, with the fields
`resp` appended so far. The slice `zipData[idx+1:hiIdx]` or the re-slice `zipData[offset:]`
panics when `hiIdx` has wrapped below `idx+1` or lies beyond `len(zipData)`. Every iteration
shortens `zipData`; `fuel` counts iterations. -/
def unzipLoop : Nat → List Nat → Option (List Field) → Outcome (Option (List Field))
  | 0, _, _ => .blocked
  | fuel + 1, zipData, resp =>
    match indexByte zipData nl with
    | none => .ret resp
    | some idx =>
      let p := zipData.take idx
      match Atoi p with
      | none => unzipLoop fuel (zipData.drop (idx + 1)) resp
      | some size =>
        if size < 0 then unzipLoop fuel (zipData.drop (idx + 1)) resp
        else
          let offset := wrapInt ((idx : Int) + 1 + size)
          let hiIdx := wrapInt (size + (idx : Int) + 1)
          if hiIdx < (idx : Int) + 1 ∨ hiIdx > (zipData.length : Int) then .panic
          else
            unzipLoop fuel (zipData.drop offset.toNat)
              (appendField resp ((zipData.drop (idx + 1)).take (hiIdx.toNat - (idx + 1))))

/-- Go `UnZip(data)`. -/
def UnZip (lib : Lib) (data : List Nat) : Outcome (Option (List Field)) :=
  match lib.gunzip data with
  | .headerErr => .panic
  | .readErr => .ret none
  | .data zipData => unzipLoop (zipData.length + 1) zipData none

/-! ## Errors and recovery -/

/-- Go `fmt.Sprintf("%v", resp)` for a `[]string`. -/
def formatSlice (resp : List Field) : Field :=
  text ("[") ++ (text (" ")).intercalate resp ++ text ("]")

/-- The text of `err.Error()`. -/
def errText (lib : Lib) : GoError → Field
  | .eof => text ("EOF")
  | .io msg => msg
  | .badArguments => text ("bad arguments")
  | .badResponse resp => text ("bad response:") ++ formatSlice resp
  | .lostConnection => text ("lost connection")
  | .numError s range =>
    text ("strconv.ParseInt: parsing ") ++ lib.Quote s ++
      (if range then text (": value out of range") else text (": invalid syntax"))

/-- The condition of `CheckError` (ssdb.go 114, ssdb-unix.go 170). -/
def isNetworkError (lib : Lib) (err : GoError) : Bool :=
  err = .eof || contains (errText lib err) (text ("connection")) ||
    contains (errText lib err) (text ("timed out")) || contains (errText lib err) (text ("route"))

/-- Go `strconv.ParseInt(s, 10, 64)`: the value and the error. -/
def ParseInt64 (s : Field) : Int × Option GoError :=
  match parseDecimal s with
  | none => (0, some (.numError s false))
  | some v =>
    if v > maxInt then (maxInt, some (.numError s true))
    else if v < minInt then (minInt, some (.numError s true))
    else (v, none)

/-! ## Replies -/

/-- A Go `map[string]string`, as the list of its bindings; a key occurs at most once. -/
abbrev GoMap := List (Field × Field)

/-- The assignment `m[k] = v`. -/
def GoMap.set (m : GoMap) (k v : Field) : GoMap := (k, v) :: m.filter (fun kv => kv.1 ≠ k)

/-- The lookup `m[k]`, `none` when `k` is not bound. -/
def GoMap.get (m : GoMap) (k : Field) : Option Field := m.lookup k

/-- The `interface{}` that `ProcessCmd` returns, by dynamic type. -/
inductive Reply where
  | nil
  | bool (b : Bool)
  | int64 (n : Int)
  | str (s : Field)
  | strs (l : List Field)
  /-- A `map[string]string` (`Client`). -/
  | strMap (m : GoMap)
  /-- A `map[string]interface{}` whose values are strings (`UnixClient`). -/
  | anyMap (m : GoMap)
  deriving DecidableEq, Repr

/-- The loop `for i := 0; i < length; i += 2 { list[data[i]] = data[i+1] }` over
`data = resp[1:]`, from the map `list`; `none` when `data[i+1]` is out of range. -/
def fillMap : List Field → GoMap → Option GoMap
  | [], list => some list
  | [_], _ => none
  | k :: v :: rest, list => fillMap rest (list.set k v)

/-- The commands of the case `"expire","setnx","auth","exists","hexists"`. -/
def boolCmds : List Field :=
  [text ("expire"), text ("setnx"), text ("auth"), text ("exists"), text ("hexists")]

/-- The commands of the case `"hgetall","hscan","hrscan","multi_hget","scan","rscan"`. -/
def mapCmds : List Field :=
  [text ("hgetall"), text ("hscan"), text ("hrscan"), text ("multi_hget"), text ("scan"),
    text ("rscan")]

/-- The `switch cmd` of the two-field `ok` reply (ssdb.go 158-171, ssdb-unix.go 241-254);
`x` is `resp[1]`. -/
def okPair (cmd x : Field) : Reply × Option GoError :=
  if cmd = text ("set") ∨ cmd = text ("del") then (.bool true, none)
  else if cmd ∈ boolCmds then (if x = text ("1") then (.bool true, none) else (.bool false, none))
  else if cmd = text ("hsize") then ((Reply.int64 (ParseInt64 x).1), (ParseInt64 x).2)
  else (.str x, none)

/-! ## `Client` (ssdb.go) -/

/-- The `Client` struct: the fields the functions below read or write. `retryStarted` counts
the `go c.RetryConnect()` statements executed. -/
structure Client where
  sock : Sock
  recv_buf : List Nat
  connected : Bool
  retry : Bool
  retryStarted : Nat
  /-- The password `Connect` authenticates with; the empty string, Go's zero value, for
  none. -/
  Password : Field := []
  deriving DecidableEq, Repr

/-- Go `(c *Client) Close()`. -/
def Client.Close (c : Client) : Client :=
  { c with connected := false, sock := { c.sock with closed := true } }

/-- Go `(c *Client) CheckError(err)`. -/
def Client.CheckError (lib : Lib) (c : Client) (err : GoError) : Client :=
  if isNetworkError lib err then { c.Close with retryStarted := c.retryStarted + 1 } else c

/-- The body of `if resp == nil || len(resp) > 0 { ... }` in `(c *Client) recv` (ssdb.go
585-598): what `recv` returns for the result `resp` of `parse`. -/
def Client.recvFrame (lib : Lib) (resp : Option (List Field)) :
    Outcome (Option (List Field) × Option GoError) :=
  match fields resp with
  | [] => .ret (resp, none)
  | first :: rest =>
    if first = text ("zip") then
      match rest with
      | [] => .panic
      | payload :: _ =>
        match lib.DecodeString payload with
        | .error e => .ret (none, some e)
        | .ok zipData =>
          match UnZip lib zipData with
          | .ret unzipped => .ret (unzipped, none)
          | .panic => .panic
          | .blocked => .blocked
    else .ret (resp, none)

/-- The `for` loop of `(c *Client) recv` on the results `reads` of the coming `Read` calls and
the read buffer `buf`: the outcome, the read buffer and the `Read` results left. -/
def Client.recvLoop (lib : Lib) :
    List ReadResult → List Nat →
      Outcome (Option (List Field) × Option GoError) × List Nat × List ReadResult
  | [], buf =>
    match parse buf with
    | .ret (resp, buf1) =>
      if resp = none ∨ (fields resp).length > 0 then (Client.recvFrame lib resp, buf1, [])
      else (.blocked, buf1, [])
    | .panic => (.panic, buf, [])
    | .blocked => (.blocked, buf, [])
  | r :: reads, buf =>
    match parse buf with
    | .ret (resp, buf1) =>
      if resp = none ∨ (fields resp).length > 0 then
        (Client.recvFrame lib resp, buf1, r :: reads)
      else
        match r with
        | .err e => (.ret (none, some e), buf1, reads)
        | .data bs => Client.recvLoop lib reads (buf1 ++ bs)
    | .panic => (.panic, buf, r :: reads)
    | .blocked => (.blocked, buf, r :: reads)

/-- Go `(c *Client) recv()` (and `Recv`, which only calls it). -/
def Client.recv (lib : Lib) (c : Client) :
    Outcome (Option (List Field) × Option GoError) × Client :=
  let r := Client.recvLoop lib c.sock.reads c.recv_buf
  (r.1, { c with recv_buf := r.2.1, sock := { c.sock with reads := r.2.2 } })

/-- Go `(c *Client) Do(args...)`. -/
def Client.Do (lib : Lib) (c : Client) (args : List Value) :
    Outcome (Option (List Field) × Option GoError) × Client :=
  match send c.sock args with
  | (some err, sock) => (.ret (none, some err), Client.CheckError lib { c with sock := sock } err)
  | (none, sock) =>
    match Client.recv lib { c with sock := sock } with
    | (.ret (_, some err), c1) => (.ret (none, some err), Client.CheckError lib c1 err)
    | (.ret (resp, none), c1) => (.ret (resp, none), c1)
    | (.panic, c1) => (.panic, c1)
    | (.blocked, c1) => (.blocked, c1)

/-- Lines 157-196 of `(c *Client) ProcessCmd`: what is returned for the reply `resp` of
`recv`, and the client afterwards. -/
def Client.classify (c : Client) (cmd : Field) (resp : List Field) :
    Outcome (Reply × Option GoError) × Client :=
  if resp.length = 2 ∧ resp.head? = some (text ("ok")) then
    (.ret (okPair cmd (resp.getD 1 [])), c)
  else if resp.length = 1 ∧ resp.head? = some (text ("not_found")) then
    (.ret (.nil, none), c)
  else if resp.length ≥ 1 ∧ resp.head? = some (text ("ok")) then
    if cmd ∈ mapCmds then
      match fillMap resp.tail [] with
      | some list => (.ret (.strMap list, none), c)
      | none => (.panic, c)
    else (.ret (.strs resp.tail, none), c)
  else
    let c1 :=
      if resp.length = 2 ∧ contains (resp.getD 1 []) (text ("connection")) then
        { c.Close with retryStarted := c.retryStarted + 1 }
      else c
    (.ret (.nil, some (.badResponse resp)), c1)

/-- Go `(c *Client) ProcessCmd(cmd, args)`. -/
def Client.ProcessCmd (lib : Lib) (c : Client) (cmd : Field) (args : List Value) :
    Outcome (Reply × Option GoError) × Client :=
  if c.connected then
    match send c.sock (.str cmd :: args) with
    | (some err, sock) => (.ret (.nil, some err), Client.CheckError lib { c with sock := sock } err)
    | (none, sock) =>
      match Client.recv lib { c with sock := sock } with
      | (.ret (_, some err), c1) => (.ret (.nil, some err), Client.CheckError lib c1 err)
      | (.ret (resp, none), c1) => Client.classify c1 cmd (fields resp)
      | (.panic, c1) => (.panic, c1)
      | (.blocked, c1) => (.blocked, c1)
  else (.ret (.nil, some .lostConnection), c)

/-! ## `UnixClient` (ssdb-unix.go) -/

/-- The `UnixClient` struct: the fields the functions below read or write. `retryStarted`
counts the `go c.RetryConnect()` statements executed. -/
structure UnixClient where
  sock : Sock
  recv_buf : List Nat
  reuse : Bool
  connected : Bool
  last_time : Int
  success : Int
  count : Int
  retryStarted : Nat
  /-- The password `Connect` authenticates with; the empty string, Go's zero value, for
  none. -/
  Password : Field := []
  deriving DecidableEq, Repr

/-- Go `(c *UnixClient) Close()`. -/
def UnixClient.Close (c : UnixClient) : UnixClient :=
  { c with connected := false, reuse := false, sock := { c.sock with closed := true } }

/-- Go `(c *UnixClient) CheckError(err)`. -/
def UnixClient.CheckError (lib : Lib) (c : UnixClient) (err : GoError) : UnixClient :=
  if isNetworkError lib err then { c.Close with retryStarted := c.retryStarted + 1 } else c

/-- The `for` loop of `(c *UnixClient) recv` (ssdb-unix.go 600-614) on the results `reads` of
the coming `Read` calls and the read buffer `buf`. -/
def UnixClient.recvLoop :
    List ReadResult → List Nat →
      Outcome (Option (List Field) × Option GoError) × List Nat × List ReadResult
  | [], buf =>
    match parse buf with
    | .ret (resp, buf1) =>
      if resp = none ∨ (fields resp).length > 0 then (.ret (resp, none), buf1, [])
      else (.blocked, buf1, [])
    | .panic => (.panic, buf, [])
    | .blocked => (.blocked, buf, [])
  | r :: reads, buf =>
    match parse buf with
    | .ret (resp, buf1) =>
      if resp = none ∨ (fields resp).length > 0 then (.ret (resp, none), buf1, r :: reads)
      else
        match r with
        | .err e => (.ret (none, some e), buf1, reads)
        | .data bs => UnixClient.recvLoop reads (buf1 ++ bs)
    | .panic => (.panic, buf, r :: reads)
    | .blocked => (.blocked, buf, r :: reads)

/-- Go `(c *UnixClient) recv()`. -/
def UnixClient.recv (c : UnixClient) :
    Outcome (Option (List Field) × Option GoError) × UnixClient :=
  let r := UnixClient.recvLoop c.sock.reads c.recv_buf
  (r.1, { c with recv_buf := r.2.1, sock := { c.sock with reads := r.2.2 } })

/-- Lines 240-267 of `(c *UnixClient) ProcessCmd`: what is returned for the reply `resp` of
`recv`. The indexings `resp[0]` are not guarded by a length test. -/
def UnixClient.classify (cmd : Field) (resp : List Field) : Outcome (Reply × Option GoError) :=
  if resp.length = 2 ∧ resp.head? = some (text ("ok")) then .ret (okPair cmd (resp.getD 1 []))
  else
    match resp with
    | [] => .panic
    | status :: data =>
      if status = text ("not_found") then .ret (.nil, none)
      else if status = text ("ok") then
        if cmd ∈ mapCmds then
          match fillMap data [] with
          | some list => .ret (.anyMap list, none)
          | none => .panic
        else .ret (.strs data, none)
      else .ret (.nil, some (.badResponse resp))

/-- Go `(c *UnixClient) ProcessCmd(cmd, args)`; `now` is the value of `time.Now().Unix()`. -/
def UnixClient.ProcessCmd (lib : Lib) (now : Int) (c : UnixClient) (cmd : Field)
    (args : List Value) : Outcome (Reply × Option GoError) × UnixClient :=
  if c.connected then
    let c0 := { c with last_time := now, reuse := false, count := c.count + 1 }
    match send c0.sock (.str cmd :: args) with
    | (some err, sock) =>
      (.ret (.nil, some err), UnixClient.CheckError lib { c0 with sock := sock } err)
    | (none, sock) =>
      match UnixClient.recv { c0 with sock := sock } with
      | (.ret (_, some err), c1) => (.ret (.nil, some err), UnixClient.CheckError lib c1 err)
      | (.ret (resp, none), c1) =>
        (UnixClient.classify cmd (fields resp),
          { c1 with success := c1.success + 1, reuse := true })
      | (.panic, c1) => (.panic, c1)
      | (.blocked, c1) => (.blocked, c1)
  else (.ret (.nil, some .lostConnection), c)

/-! ## Reference definitions -/

/-- The block `<decimal-byte-length>\n<raw-bytes>\n` of one field. -/
def block (f : Field) : List Nat := formatNat f.length ++ [nl] ++ f ++ [nl]

/-- The blocks of the fields `fs`, one after the other. -/
def blocks (fs : List Field) : List Nat := (fs.map block).flatten

/-- The wire form of a frame: its blocks and one final newline. -/
def encode (fs : List Field) : List Nat := blocks fs ++ [nl]

/-- Whether `send` has a case for the argument. -/
def Value.supported : Value → Bool
  | .other => false
  | _ => true

/-- The text forms of one argument, following the spec: a list of text gives each element,
a boolean `1` or `0`, null the empty string, an integer its decimal form. -/
def Value.texts : Value → List Field
  | .str s => [s]
  | .bytes b => [b]
  | .strs l => l
  | .int i => [formatInt i]
  | .int64 i => [formatInt i]
  | .float64 fixed => [fixed]
  | .bool true => [text ("1")]
  | .bool false => [text ("0")]
  | .nil => [[]]
  | .other => []

/-- The text forms of an argument list, lists of text flattened. -/
def textForms (args : List Value) : List Field := (args.map Value.texts).flatten

/-- What recv takes for a complete frame: a non-nil slice with at least one field. -/
def isFrame (resp : Option (List Field)) : Bool :=
  match resp with
  | some (_ :: _) => true
  | _ => false

/-- The decimal numeral of a natural number, by the spec's word "decimal": the base-ten
digits of `n` (Mathlib's `Nat.digits`), most significant first, each as the ASCII digit
`48 + d`; the numeral of 0 is `0`. -/
def decimalNat (n : Nat) : Field :=
  if n = 0 then [48] else (Nat.digits 10 n).reverse.map (fun d => 48 + d)

/-- The decimal numeral of an integer: for a negative one, the minus sign (byte 45) before
the numeral of its absolute value. -/
def decimalInt (i : Int) : Field :=
  if i < 0 then 45 :: decimalNat i.natAbs else decimalNat i.natAbs

/-- The block of one value by the spec: its decimal byte length, a newline (byte 10), its
bytes and a newline. -/
def refBlock (f : Field) : List Nat := decimalNat f.length ++ [10] ++ f ++ [10]

/-- The byte strings an argument stands for, by the claim's words: a text or raw bytes as
they are, each element of a list of text on its own, an integer in decimal, a floating-point
number in its fixed-decimal text, a boolean as `1` (byte 49) or `0` (byte 48), null as the
empty string. -/
def Value.refTexts : Value → List Field
  | .str s => [s]
  | .bytes b => [b]
  | .strs l => l
  | .int i => [decimalInt i]
  | .int64 i => [decimalInt i]
  | .float64 fixed => [fixed]
  | .bool true => [[49]]
  | .bool false => [[48]]
  | .nil => [[]]
  | .other => []

/-- The reference encoding of an argument list: the blocks of the arguments' byte strings,
argument after argument, then one final newline (byte 10). -/
def refEncode (args : List Value) : List Nat :=
  (((args.map Value.refTexts).flatten).map refBlock).flatten ++ [10]

/-- The lines `parse` skips before the first field: for each flag one empty line, `\r\n`
when the flag is set and `\n` otherwise. -/
def blankLines (crs : List Bool) : List Nat :=
  (crs.map (fun c => if c then [cr, nl] else [nl])).flatten

/-- The test `err != nil || size < 0` of `parse` on the length line `p`. -/
def badLength (p : Field) : Bool :=
  match Atoi p with
  | none => true
  | some size => decide (size < 0)

/-- The value a key has in the last pair `ki, vi` that names it, `none` when no pair does. -/
def lastValue : List (Field × Field) → Field → Option Field
  | [], _ => none
  | (k, v) :: rest, key =>
    match lastValue rest key with
    | some x => some x
    | none => if key = k then some v else none

/-- The data fields `k1, v1, ..., kn, vn` of a map-shaped reply. -/
def flatPairs : List (Field × Field) → List Field
  | [] => []
  | (k, v) :: rest => k :: v :: flatPairs rest

/-- A library for examples where no compressed reply occurs: base64 decoding rejects every
input and decompression fails to read. -/
def plainLib : Lib :=
  { DecodeString := fun _ => .error (.io (text ("illegal base64 data at input byte 0")))
    gunzip := fun _ => .readErr
    Quote := fun s => text ("\"") ++ s ++ text ("\"") }

/-- A library for examples of compressed replies, in which base64 and gzip encode every byte
string as itself. -/
def identityLib : Lib :=
  { DecodeString := fun s => .ok s
    gunzip := fun z => .data z
    Quote := fun s => text ("\"") ++ s ++ text ("\"") }

/-- A socket on which nothing was written yet, whose `Write` succeeds and whose coming
`Read` calls give `reads`. -/
def Sock.delivering (reads : List ReadResult) : Sock :=
  { reads := reads, writeErr := none, writes := [], closed := false }

/-- A connected `Client` with the read buffer `buf`, on a socket delivering `reads`. -/
def Client.connectedTo (buf : List Nat) (reads : List ReadResult) : Client :=
  { sock := Sock.delivering reads, recv_buf := buf, connected := true, retry := false,
    retryStarted := 0 }

/-- A connected `UnixClient` with the read buffer `buf`, on a socket delivering `reads`. -/
def UnixClient.connectedTo (buf : List Nat) (reads : List ReadResult) : UnixClient :=
  { sock := Sock.delivering reads, recv_buf := buf, reuse := true, connected := true,
    last_time := 0, success := 0, count := 0, retryStarted := 0 }

/-! ## Connecting and reconnecting (ssdb.go 66-118, ssdb-unix.go 135-174) -/

/-- The socket of a client that never dialed with success (a nil pointer): nothing can be
read, and `Write` fails. -/
def Sock.absent : Sock :=
  { reads := [], writeErr := some (.io (text ("invalid argument"))), writes := [],
    closed := false }

/-- Go `(c *Client) Connect()`. `dial` is what `net.ResolveTCPAddr` and `net.DialTCP` give:
the new socket or the error. With a password the call `c.Auth(c.Password)` is made, which is
`c.ProcessCmd("auth", [c.Password])`, and its result is dropped. -/
def Client.Connect (lib : Lib) (c : Client) (dial : Except GoError Sock) :
    Outcome (Option GoError) × Client :=
  match dial with
  | .error err => (.ret (some err), c)
  | .ok sock =>
    let c1 := { c with sock := sock, connected := true, retry := false }
    if c1.Password ≠ [] then
      match Client.ProcessCmd lib c1 (text ("auth")) [.str c1.Password] with
      | (.ret _, c2) => (.ret none, c2)
      | (.panic, c2) => (.panic, c2)
      | (.blocked, c2) => (.blocked, c2)
    else (.ret none, c1)

/-- The `var c Client` of `connect` (ssdb.go 57-61) after `c.Password = auth`; its `sock` is
the nil pointer, for which `Sock.absent` stands. -/
def Client.fresh (auth : Field) : Client :=
  { sock := Sock.absent, recv_buf := [], connected := false, retry := false, retryStarted := 0,
    Password := auth }

/-- Go `Connect(ip, port, auth)` (ssdb.go 43-54), with `dial` what dialing gives: the client
and the error returned. After a failed dial the client's `sock` is still the nil pointer and
one `RetryConnect` has been started for it. -/
def Connect (lib : Lib) (auth : Field) (dial : Except GoError Sock) :
    Outcome (Client × Option GoError) :=
  match Client.Connect lib (Client.fresh auth) dial with
  | (.ret (some err), client) =>
    .ret ({ client with retryStarted := client.retryStarted + 1 }, some err)
  | (.ret none, client) => .ret (client, none)
  | (.panic, _) => .panic
  | (.blocked, _) => .blocked

/-- The value a call returned, `none` when it did not return. -/
def Outcome.value? {α : Type} : Outcome α → Option α
  | .ret a => some a
  | .panic => none
  | .blocked => none

/-- Go `(c *UnixClient) Connect()`; `now` is the value of `time.Now().Unix()` during the
call and `dial` what `net.DialUnix` gives. -/
def UnixClient.Connect (lib : Lib) (now : Int) (c : UnixClient) (dial : Except GoError Sock) :
    Outcome (Option GoError) × UnixClient :=
  match dial with
  | .error err => (.ret (some err), c)
  | .ok sock =>
    let c1 := { c with last_time := now, sock := sock, reuse := true, connected := true }
    if c1.Password ≠ [] then
      match UnixClient.ProcessCmd lib now c1 (text ("auth")) [.str c1.Password] with
      | (.ret _, c2) => (.ret none, c2)
      | (.panic, c2) => (.panic, c2)
      | (.blocked, c2) => (.blocked, c2)
    else (.ret none, c1)

/-- Where a goroutine started by `go c.RetryConnect()` stands. -/
inductive Task where
  /-- Started, the first statement of `RetryConnect` not yet run. -/
  | spawned
  /-- Inside the `for` loop of `RetryConnect`, between two iterations. -/
  | looping
  /-- Inside the `for` loop, in a `Connect` that panicked or never returns. -/
  | stuck
  /-- The call `RetryConnect` has returned. -/
  | returned
  deriving DecidableEq, Repr

/-- The tasks after `after - before` more `go c.RetryConnect()` statements were run. -/
def spawnTasks (tasks : List Task) (before after : Nat) : List Task :=
  tasks ++ List.replicate (after - before) Task.spawned

/-- The number of goroutines that are inside the `for` loop of `RetryConnect`. -/
def loopsRunning (tasks : List Task) : Nat :=
  tasks.countP (fun t => t = Task.looping ∨ t = Task.stuck)

/-- One `Client` together with the `RetryConnect` goroutines started for it; `dialed` lists,
in order, the tasks that called `Connect` from their loop. -/
structure Conn where
  c : Client
  tasks : List Task
  dialed : List Nat
  deriving DecidableEq, Repr

/-- What can happen next on a `Client`, one goroutine moving at a time. -/
inductive Event where
  /-- Some caller runs `c.CheckError(err)` (ssdb.go 113-118). -/
  | failure (err : GoError)
  /-- Task `i` runs the locked section of `RetryConnect` (ssdb.go 91-98). -/
  | enter (i : Nat)
  /-- Task `i` runs one iteration of the loop of `RetryConnect` (ssdb.go 100-109); `dial` is
  what dialing gives if `Connect` is called. -/
  | iterate (i : Nat) (dial : Except GoError Sock)

/-- One step of a `Client` and its `RetryConnect` goroutines. An event naming a task that is
not at the place the event needs changes nothing. -/
def Conn.step (lib : Lib) (s : Conn) : Event → Conn
  | .failure err =>
    let c1 := Client.CheckError lib s.c err
    { s with c := c1, tasks := spawnTasks s.tasks s.c.retryStarted c1.retryStarted }
  | .enter i =>
    if s.tasks[i]? = some Task.spawned then
      if !s.c.retry then
        { s with c := { s.c with retry := true }, tasks := s.tasks.set i Task.looping }
      else { s with tasks := s.tasks.set i Task.returned }
    else s
  | .iterate i dial =>
    if s.tasks[i]? = some Task.looping then
      if !s.c.connected then
        match Client.Connect lib s.c dial with
        | (.ret _, c1) =>
          { c := c1, tasks := spawnTasks s.tasks s.c.retryStarted c1.retryStarted,
            dialed := s.dialed ++ [i] }
        | (_, c1) =>
          { c := c1,
            tasks := spawnTasks (s.tasks.set i Task.stuck) s.c.retryStarted c1.retryStarted,
            dialed := s.dialed ++ [i] }
      else { s with tasks := s.tasks.set i Task.returned }
    else s

/-- The state after the events `es`, in order. -/
def Conn.run (lib : Lib) (s : Conn) (es : List Event) : Conn := es.foldl (Conn.step lib) s

/-- One `UnixClient` together with the `RetryConnect` goroutines started for it. -/
structure UnixConn where
  c : UnixClient
  tasks : List Task
  dialed : List Nat
  deriving DecidableEq, Repr

/-- What can happen next on a `UnixClient`, one goroutine moving at a time. -/
inductive UnixEvent where
  /-- Some caller runs `c.CheckError(err)` (ssdb-unix.go 169-174). -/
  | failure (err : GoError)
  /-- Task `i` starts running `RetryConnect` (ssdb-unix.go 157-158): it reaches the loop. -/
  | enter (i : Nat)
  /-- Task `i` runs one iteration of the loop of `RetryConnect` (ssdb-unix.go 159-166) at
  clock reading `now`. -/
  | iterate (i : Nat) (now : Int) (dial : Except GoError Sock)

/-- One step of a `UnixClient` and its `RetryConnect` goroutines. -/
def UnixConn.step (lib : Lib) (s : UnixConn) : UnixEvent → UnixConn
  | .failure err =>
    let c1 := UnixClient.CheckError lib s.c err
    { s with c := c1, tasks := spawnTasks s.tasks s.c.retryStarted c1.retryStarted }
  | .enter i =>
    if s.tasks[i]? = some Task.spawned then { s with tasks := s.tasks.set i Task.looping }
    else s
  | .iterate i now dial =>
    if s.tasks[i]? = some Task.looping then
      if !s.c.connected then
        match UnixClient.Connect lib now s.c dial with
        | (.ret _, c1) =>
          { c := c1, tasks := spawnTasks s.tasks s.c.retryStarted c1.retryStarted,
            dialed := s.dialed ++ [i] }
        | (_, c1) =>
          { c := c1,
            tasks := spawnTasks (s.tasks.set i Task.stuck) s.c.retryStarted c1.retryStarted,
            dialed := s.dialed ++ [i] }
      else { s with tasks := s.tasks.set i Task.returned }
    else s

/-- The state after the events `es`, in order. -/
def UnixConn.run (lib : Lib) (s : UnixConn) (es : List UnixEvent) : UnixConn :=
  es.foldl (UnixConn.step lib) s

/-! ## The fan-out of `MultiHashSet` (ssdb.go 272-317) -/

/-- The `HashData` struct. -/
structure HashData where
  HashName : Field
  Key : Field
  Value : Field
  deriving DecidableEq, Repr

/-- The Go slice expression `l[lo:hi]`; `none` when it panics (bounds out of range). -/
def slice {α : Type} (l : List α) (lo hi : Nat) : Option (List α) :=
  if lo ≤ hi ∧ hi ≤ l.length then some ((l.drop lo).take (hi - lo)) else none

/-- The chunk `MultiHashSet` hands to the worker of the loop index `i` (1 to `connNum`), with
`p := len(parts) / connNum` (ssdb.go 298-306). -/
def chunkOf (parts : List HashData) (connNum i : Nat) : Option (List HashData) :=
  if i = 1 then slice parts 0 (parts.length / connNum * i)
  else if i = connNum then slice parts (parts.length / connNum * (i - 1)) parts.length
  else slice parts (parts.length / connNum * (i - 1)) (parts.length / connNum * i)

/-- The sizes of the chunks of the workers 1 to `connNum`, in order. -/
def chunkSizes (parts : List HashData) (connNum : Nat) : List Nat :=
  (List.range connNum).map (fun k => ((chunkOf parts connNum (k + 1)).getD []).length)

/-- Go `conHelper(chunk, wg, c, results, errs)`. The slices `results` and `errs` are
parameters, passed by value: the appends change the local variables only. The function has
no result in Go; what is returned here is the final value of those two local variables, and
the client afterwards. -/
def conHelper (lib : Lib) :
    List HashData → Client → List Reply → List GoError →
      Outcome (List Reply × List GoError) × Client
  | [], c, results, errs => (.ret (results, errs), c)
  | v :: chunk, c, results, errs =>
    match Client.ProcessCmd lib c (text ("hset")) [.str v.HashName, .str v.Key, .str v.Value] with
    | (.ret (res, none), c1) => conHelper lib chunk c1 (results ++ [res]) errs
    | (.ret (_, some err), c1) => (.ret (results, errs ++ [err]), c1)
    | (.panic, c1) => (.panic, c1)
    | (.blocked, c1) => (.blocked, c1)

/-- The goroutine of the loop index `k + 1` of `MultiHashSet`, run to its end on the client
`privatePool[k]`: it is handed its chunk and the caller's `results` and `errs`. -/
def runWorker (lib : Lib) (parts : List HashData) (connNum : Nat) (privatePool : List Client)
    (results : List Reply) (errs : List GoError) (k : Nat) :
    Outcome (List Reply × List GoError) :=
  match chunkOf parts connNum (k + 1), privatePool[k]? with
  | some chunk, some cl => (conHelper lib chunk cl results errs).1
  | _, _ => .panic

/-- Go `(c *Client) MultiHashSet(parts, connNum)`. `dials k` is what dialing gives in the
`k`-th call of `Connect(c.Ip, c.Port, c.Password)`, whose error is dropped. The workers touch
nothing but their own client and their own copies of `results` and `errs`, so the order in
which they run does not matter; a worker that panics brings the process down, and one that
never returns keeps `wg.Wait()` waiting. The closing loop (ssdb.go 310-312) calls `Close` on
every dialed client: for one whose dial failed `c.sock` is still the nil pointer (the
`RetryConnect` started for it is taken not to have dialed with success meanwhile) and
`c.sock.Close()` panics. The value returned is the pair of Go results: `none` for the nil
interface, `some results` for the slice. -/
def Client.MultiHashSet (lib : Lib) (c : Client) (dials : Nat → Except GoError Sock)
    (parts : List HashData) (connNum : Int) : Outcome (Option (List Reply) × Option GoError) :=
  let inner := (List.range (connNum.toNat - 1)).map
    (fun k => Ssdb.Connect lib c.Password (dials k))
  if inner.any (fun o => o = .panic) then .panic
  else if inner.any (fun o => o = .blocked) then .blocked
  else if connNum ≤ 0 then .panic
  else
    let dialed := inner.filterMap Outcome.value?
    let privatePool := dialed.map Prod.fst ++ [c]
    let results : List Reply := []
    let errs : List GoError := []
    let done := (List.range connNum.toNat).map
      (runWorker lib parts connNum.toNat privatePool results errs)
    if done.any (fun o => o = .panic) then .panic
    else if done.any (fun o => o = .blocked) then .blocked
    else if dialed.any (fun r => r.2.isSome) then .panic
    else
      match errs with
      | err :: _ => .ret (none, some err)
      | [] => .ret (some results, none)

/-! ## The connection pool (ssdb-unix.go 33-125) -/

/-- The `SSDBUnix` struct; `connect_pool` holds the members the pointers of the Go slice
point to, which are distinct objects. -/
structure SSDBUnix where
  connect_pool : List UnixClient
  max_connect : Int
  ip : Field
  port : Int
  timeout : Int
  deriving DecidableEq, Repr

/-- Go `SSDBUnixInit(ip, port, max_connect)`. -/
def SSDBUnixInit (ip : Field) (port : Int) (max_connect : Int) : SSDBUnix :=
  { connect_pool := [], max_connect := max_connect, ip := ip, port := port, timeout := 30 }

/-- The test `!v.connected || now - v.last_time > int64(db.timeout)` of the sweep, with the
subtraction in `int64`. -/
def expired (now timeout : Int) (v : UnixClient) : Bool :=
  !v.connected || decide (wrapInt (now - v.last_time) > timeout)

/-- The statement that takes the member at index `i` out of the pool (ssdb-unix.go 58-62):
`append(pool[:i], pool[i+1:]...)` when the pool has more than one member, else `nil`. -/
def removeAt (pool : List UnixClient) (i : Nat) : List UnixClient :=
  if pool.length > 1 then pool.take i ++ pool.drop (i + 1) else []

/-- The loop `for i := len(db.connect_pool)-1; i >= 0; i--` of the sweep (ssdb-unix.go
54-64), about to run the iteration with index `i = k - 1` (none when `k = 0`): the pool after
the loop together with the members `Close` was called on, as they are after the call; a
panic when `db.connect_pool[i]` is out of range. The counter `remove_count` is written and
never read; it is left out. -/
def recycleLoop (now timeout : Int) :
    Nat → List UnixClient → List UnixClient → Outcome (List UnixClient × List UnixClient)
  | 0, pool, closed => .ret (pool, closed)
  | i + 1, pool, closed =>
    match pool[i]? with
    | none => .panic
    | some v =>
      if expired now timeout v then
        recycleLoop now timeout i (removeAt pool i) (v.Close :: closed)
      else recycleLoop now timeout i pool closed

/-- One pass of the endless loop that Go `(db *SSDBUnix) Recycle()` starts, at the clock
reading `now`: the pool afterwards and the members that were closed. -/
def SSDBUnix.Recycle (db : SSDBUnix) (now : Int) : Outcome (SSDBUnix × List UnixClient) :=
  match recycleLoop now db.timeout db.connect_pool.length db.connect_pool [] with
  | .ret (pool, closed) => .ret ({ db with connect_pool := pool }, closed)
  | .panic => .panic
  | .blocked => .blocked

/-- The `var c UnixClient` of `Unixconnect` after `c.Password = auth`. -/
def UnixClient.fresh (auth : Field) : UnixClient :=
  { sock := Sock.absent, recv_buf := [], reuse := false, connected := false, last_time := 0,
    success := 0, count := 0, retryStarted := 0, Password := auth }

/-- Go `UnixConnect(ip, port, auth)` on the global `SSDBUnixM` (`none` for nil), at clock
reading `now`, with `dial` what `net.DialUnix` gives: the client and error returned, and the
global afterwards. -/
def UnixConnect (lib : Lib) (SSDBUnixM : Option SSDBUnix) (ip : Field) (port : Int)
    (auth : Field) (now : Int) (dial : Except GoError Sock) :
    Outcome (UnixClient × Option GoError) × Option SSDBUnix :=
  let db := SSDBUnixM.getD (SSDBUnixInit ip port 100)
  match UnixClient.Connect lib now (UnixClient.fresh auth) dial with
  | (.ret (some err), client) =>
    (.ret ({ client with retryStarted := client.retryStarted + 1 }, some err), some db)
  | (.ret none, client) =>
    (.ret (client, none), some { db with connect_pool := db.connect_pool ++ [client] })
  | (.panic, _) => (.panic, some db)
  | (.blocked, _) => (.blocked, some db)

/-- What can happen to the pool: a call of `UnixConnect` whose dial succeeds with the socket
`sock`, or one pass of the sweep. -/
inductive PoolEvent where
  | acquire (auth : Field) (now : Int) (sock : Sock)
  | sweep (now : Int)
  deriving DecidableEq, Repr

/-- One step of the global pool `SSDBUnixM`. -/
def poolStep (lib : Lib) (ip : Field) (port : Int) (M : Option SSDBUnix) :
    PoolEvent → Option SSDBUnix
  | .acquire auth now sock => (UnixConnect lib M ip port auth now (.ok sock)).2
  | .sweep now =>
    match M with
    | none => none
    | some db =>
      match db.Recycle now with
      | .ret (db1, _) => some db1
      | _ => some db

/-- The global pool after the events `es`, in order. -/
def poolRun (lib : Lib) (ip : Field) (port : Int) (M : Option SSDBUnix) (es : List PoolEvent) :
    Option SSDBUnix :=
  es.foldl (poolStep lib ip port) M

/-- The number of members of the global pool, 0 while it is nil. -/
def poolSize (M : Option SSDBUnix) : Nat :=
  match M with
  | none => 0
  | some db => db.connect_pool.length

/-- The number of acquisitions among the events. -/
def acquisitions (es : List PoolEvent) : Nat :=
  es.countP (fun e => match e with
    | .acquire _ _ _ => true
    | .sweep _ => false)

/-- What the spec asks of a member the sweep keeps: it is connected and its last-activity
age at the clock reading `now` is at most the idle timeout. -/
def alive (now timeout : Int) (v : UnixClient) : Bool :=
  v.connected && decide (now - v.last_time ≤ timeout)

/-! ## Lemmas on bytes and decimal numbers -/

theorem indexByte_append_cons (p r : List Nat) (c : Nat) (h : c ∉ p) :
    indexByte (p ++ c :: r) c = some p.length := by
  induction p with
  | nil => simp [indexByte]
  | cons b p ih =>
    have hb : b ≠ c := fun e => h (by simp [e])
    have hp : c ∉ p := fun e => h (by simp [e])
    simp [indexByte, hb, ih hp]

theorem indexByte_eq_none (p : List Nat) (c : Nat) (h : c ∉ p) : indexByte p c = none := by
  induction p with
  | nil => simp [indexByte]
  | cons b p ih =>
    have hb : b ≠ c := fun e => h (by simp [e])
    have hp : c ∉ p := fun e => h (by simp [e])
    simp [indexByte, hb, ih hp]

theorem digitsValue_append (l1 l2 : List Nat) (acc : Nat) :
    digitsValue (l1 ++ l2) acc = (digitsValue l1 acc).bind (digitsValue l2) := by
  induction l1 generalizing acc with
  | nil => simp [digitsValue]
  | cons b l1 ih =>
    by_cases hb : 48 ≤ b ∧ b ≤ 57
    · simp [digitsValue, hb, ih]
    · simp [digitsValue, hb]

theorem decimalDigits_isDigit (fuel n : Nat) : ∀ b ∈ decimalDigits fuel n, 48 ≤ b ∧ b ≤ 57 := by
  induction fuel generalizing n with
  | zero => simp [decimalDigits]
  | succ fuel ih =>
    intro b hb
    unfold decimalDigits at hb
    split at hb
    · simp at hb; omega
    · rcases List.mem_append.1 hb with h | h
      · exact ih _ b h
      · simp at h; omega

theorem decimalDigits_ne_nil (fuel n : Nat) (h : n < fuel) : decimalDigits fuel n ≠ [] := by
  cases fuel with
  | zero => omega
  | succ fuel =>
    unfold decimalDigits
    split <;> simp

theorem digitsValue_decimalDigits (fuel n : Nat) (h : n < fuel) :
    digitsValue (decimalDigits fuel n) 0 = some n := by
  induction fuel generalizing n with
  | zero => omega
  | succ fuel ih =>
    unfold decimalDigits
    split
    · have h1 : 48 + n - 48 = n := by omega
      simp [digitsValue, h1]
      omega
    · have h2 : n / 10 < fuel := by omega
      have h3 : 48 + n % 10 - 48 = n % 10 := by omega
      have h4 : 48 + n % 10 ≤ 57 := by omega
      rw [digitsValue_append, ih _ h2]
      simp [digitsValue, h3, h4]
      omega

theorem formatNat_isDigit (n : Nat) : ∀ b ∈ formatNat n, 48 ≤ b ∧ b ≤ 57 :=
  decimalDigits_isDigit _ _

theorem formatNat_ne_nil (n : Nat) : formatNat n ≠ [] :=
  decimalDigits_ne_nil _ _ (Nat.lt_succ_self n)

theorem nl_not_mem_formatNat (n : Nat) : nl ∉ formatNat n := by
  intro h
  have := formatNat_isDigit n nl h
  simp [nl] at this

theorem parseDecimal_formatNat (n : Nat) : parseDecimal (formatNat n) = some (n : Int) := by
  have hv : digitsValue (formatNat n) 0 = some n := digitsValue_decimalDigits _ _ (Nat.lt_succ_self n)
  have hd := formatNat_isDigit n
  have hne := formatNat_ne_nil n
  cases hf : formatNat n with
  | nil => exact absurd hf hne
  | cons b bs =>
    rw [hf] at hv hd
    have hb := hd b (by simp)
    have h45 : b ≠ 45 := by omega
    have h43 : b ≠ 43 := by omega
    simp [parseDecimal, h45, h43, hv]

theorem Atoi_formatNat (n : Nat) (h : (n : Int) ≤ maxInt) : Atoi (formatNat n) = some (n : Int) := by
  have h0 : minInt ≤ (n : Int) := by simp [minInt]; omega
  simp [Atoi, parseDecimal_formatNat, h, h0]

theorem formatNat_not_blank (n : Nat) :
    ¬ ((formatNat n).length = 0 ∨ ((formatNat n).length = 1 ∧ (formatNat n).head? = some cr)) := by
  have hd := formatNat_isDigit n
  have hne := formatNat_ne_nil n
  cases hf : formatNat n with
  | nil => exact absurd hf hne
  | cons b bs =>
    rw [hf] at hd
    have hb := hd b (by simp)
    simp [cr]
    intro _
    omega

theorem wrapInt_of_range (x : Int) (h0 : 0 ≤ x) (h1 : x ≤ maxInt) : wrapInt x = x := by
  simp only [maxInt] at h1
  unfold wrapInt
  omega

/-! ## Lemmas on the decoder loop -/

/-- One iteration of the loop of `parse` at the start of a line `p` that ends in a newline. -/
theorem parseLoop_line (fuel : Nat) (pre p r : List Nat) (resp : List Field) (hp : nl ∉ p) :
    parseLoop (fuel + 1) (pre ++ (p ++ nl :: r)) pre.length resp =
      if p.length = 0 ∨ (p.length = 1 ∧ p.head? = some cr) then
        if resp.length = 0 then parseLoop fuel (pre ++ (p ++ nl :: r)) (pre.length + p.length + 1) resp
        else .ret (some resp, pre.length + p.length + 1)
      else
        match Atoi p with
        | none => .ret (none, 0)
        | some size =>
          if size < 0 then .ret (none, 0)
          else
            if wrapInt (((pre.length + p.length + 1 : Nat) : Int) + size) ≥
                ((pre ++ (p ++ nl :: r)).length : Int) then .ret (some [], 0)
            else if wrapInt (((pre.length + p.length + 1 : Nat) : Int) + size) <
                ((pre.length + p.length + 1 : Nat) : Int) then .panic
            else
              parseLoop fuel (pre ++ (p ++ nl :: r)) (pre.length + p.length + 1 + size.toNat + 1)
                (resp ++ [r.take size.toNat]) := by
  have hdrop : (pre ++ (p ++ nl :: r)).drop pre.length = p ++ nl :: r := List.drop_left _ _
  have hdrop2 : (pre ++ (p ++ nl :: r)).drop (pre.length + p.length + 1) = r := by
    have : pre ++ (p ++ nl :: r) = (pre ++ p ++ [nl]) ++ r := by simp
    rw [this]
    have hl : pre.length + p.length + 1 = (pre ++ p ++ [nl]).length := by
      simp only [List.length_append, List.length_cons, List.length_nil]
    rw [hl]
    exact List.drop_left _ _
  rw [parseLoop, hdrop, indexByte_append_cons p r nl hp]
  simp only [List.take_left, hdrop2]

/-- The loop stops with the empty slice when no newline is left. -/
theorem parseLoop_no_newline (fuel : Nat) (pre g : List Nat) (resp : List Field) (hg : nl ∉ g) :
    parseLoop (fuel + 1) (pre ++ g) pre.length resp = .ret (some [], 0) := by
  have hdrop : (pre ++ g).drop pre.length = g := List.drop_left _ _
  rw [parseLoop, hdrop, indexByte_eq_none g nl hg]

/-- The loop returns the fields read when it meets the empty line that ends a frame. -/
theorem parseLoop_end (fuel : Nat) (pre r : List Nat) (resp : List Field) (hresp : resp ≠ []) :
    parseLoop (fuel + 1) (pre ++ nl :: r) pre.length resp = .ret (some resp, pre.length + 1) := by
  have h := parseLoop_line fuel pre [] r resp (by simp)
  simp only [List.nil_append, List.length_nil, Nat.add_zero] at h
  rw [h]
  simp [hresp]

/-- The loop reads one block that is followed by at least one more byte. -/
theorem parseLoop_block (fuel : Nat) (pre f tl : List Nat) (resp : List Field) (htl : tl ≠ [])
    (hlen : ((pre ++ (formatNat f.length ++ nl :: (f ++ tl))).length : Int) ≤ maxInt) :
    parseLoop (fuel + 1) (pre ++ (formatNat f.length ++ nl :: (f ++ tl))) pre.length resp =
      parseLoop fuel (pre ++ (formatNat f.length ++ nl :: (f ++ tl)))
        (pre.length + (formatNat f.length).length + 1 + f.length + 1) (resp ++ [f]) := by
  rw [parseLoop_line fuel pre (formatNat f.length) (f ++ tl) resp (nl_not_mem_formatNat _)]
  rw [if_neg (formatNat_not_blank _)]
  have hf : (f.length : Int) ≤ maxInt := by
    simp only [List.length_append, List.length_cons] at hlen
    push_cast at hlen
    omega
  rw [Atoi_formatNat _ hf]
  have htl0 : 0 < tl.length := List.length_pos.2 htl
  have hw : wrapInt (((pre.length + (formatNat f.length).length + 1 : Nat) : Int) + (f.length : Int))
      = ((pre.length + (formatNat f.length).length + 1 : Nat) : Int) + (f.length : Int) := by
    apply wrapInt_of_range
    · omega
    · simp only [List.length_append, List.length_cons] at hlen
      push_cast at hlen ⊢
      omega
  simp only [hw]
  have h1 : ¬ ((f.length : Int) < 0) := by omega
  have h2 : ¬ (((pre.length + (formatNat f.length).length + 1 : Nat) : Int) + (f.length : Int) ≥
      ((pre ++ (formatNat f.length ++ nl :: (f ++ tl))).length : Int)) := by
    simp only [List.length_append, List.length_cons]
    push_cast
    omega
  have h3 : ¬ (((pre.length + (formatNat f.length).length + 1 : Nat) : Int) + (f.length : Int) <
      ((pre.length + (formatNat f.length).length + 1 : Nat) : Int)) := by omega
  simp only [h1, h2, h3, if_false, Int.toNat_ofNat, List.take_left]

/-- The loop stops with the empty slice when the payload of a block has not fully arrived:
fewer than `n + 1` bytes follow the length line. -/
theorem parseLoop_short (fuel n : Nat) (pre g : List Nat) (resp : List Field) (hg : g.length ≤ n)
    (hlen : ((pre.length + (formatNat n).length + 1 + n : Nat) : Int) ≤ maxInt) :
    parseLoop (fuel + 1) (pre ++ (formatNat n ++ nl :: g)) pre.length resp = .ret (some [], 0) := by
  rw [parseLoop_line fuel pre (formatNat n) g resp (nl_not_mem_formatNat _)]
  rw [if_neg (formatNat_not_blank _)]
  have hf : (n : Int) ≤ maxInt := by push_cast at hlen; omega
  rw [Atoi_formatNat _ hf]
  have hw : wrapInt (((pre.length + (formatNat n).length + 1 : Nat) : Int) + (n : Int))
      = ((pre.length + (formatNat n).length + 1 : Nat) : Int) + (n : Int) := by
    apply wrapInt_of_range
    · omega
    · push_cast at hlen ⊢
      omega
  simp only [hw]
  have h1 : ¬ ((n : Int) < 0) := by omega
  have h2 : (((pre.length + (formatNat n).length + 1 : Nat) : Int) + (n : Int) ≥
      ((pre ++ (formatNat n ++ nl :: g)).length : Int)) := by
    simp only [List.length_append, List.length_cons]
    push_cast
    omega
  simp only [h1, h2, if_false, if_true]

theorem indexByte_lt (l : List Nat) (c idx : Nat) (h : indexByte l c = some idx) :
    idx < l.length := by
  induction l generalizing idx with
  | nil => simp [indexByte] at h
  | cons b l ih =>
    unfold indexByte at h
    split at h
    · simp at h; subst h; simp
    · cases hi : indexByte l c with
      | none => simp [hi] at h
      | some i =>
        simp [hi] at h
        subst h
        have := ih i hi
        simp
        omega

theorem Atoi_le_maxInt (p : Field) (v : Int) (h : Atoi p = some v) : v ≤ maxInt := by
  unfold Atoi at h
  split at h
  · simp at h
  · split at h
    · simp at h; subst h; omega
    · simp at h

/-- The iteration bound of `parse` is never reached: the loop moves `offset` forward in every
iteration and stays within the buffer. -/
theorem parseLoop_ne_blocked :
    ∀ (fuel : Nat) (buf : List Nat) (offset : Nat) (resp : List Field), offset ≤ buf.length →
      buf.length - offset < fuel → parseLoop fuel buf offset resp ≠ .blocked := by
  intro fuel
  induction fuel with
  | zero => intro buf offset resp _ h; omega
  | succ fuel ih =>
    intro buf offset resp hoff hfuel
    unfold parseLoop
    cases hidx : indexByte (buf.drop offset) nl with
    | none => simp
    | some idx =>
      have hlt := indexByte_lt _ _ _ hidx
      rw [List.length_drop] at hlt
      simp only
      split
      · split
        · exact ih buf _ resp (by omega) (by omega)
        · simp
      · cases hA : Atoi (List.take idx (List.drop offset buf)) with
        | none => simp
        | some size =>
          have hmax := Atoi_le_maxInt _ _ hA
          simp only
          split
          · simp
          · split
            · simp
            · split
              · simp
              · rename_i h0 h1 h2
                have hsz : offset + idx + 1 + size.toNat + 1 ≤ buf.length := by
                  simp only [wrapInt, maxInt] at h1 h2 hmax
                  omega
                exact ih buf _ _ (by omega) (by omega)

/-- The call `parse` always returns or panics. -/
theorem parse_ne_blocked (buf : List Nat) : parse buf ≠ .blocked := by
  have h := parseLoop_ne_blocked (buf.length + 1) buf 0 [] (by omega) (by omega)
  unfold parse
  split
  · simp
  · simp
  · rename_i hb
    exact absurd hb h

/-- The iteration bound of `UnZip` is never reached: every iteration shortens `zipData`. -/
theorem unzipLoop_ne_blocked :
    ∀ (fuel : Nat) (zipData : List Nat) (resp : Option (List Field)), zipData.length < fuel →
      unzipLoop fuel zipData resp ≠ .blocked := by
  intro fuel
  induction fuel with
  | zero => intro zipData resp h; omega
  | succ fuel ih =>
    intro zipData resp hfuel
    unfold unzipLoop
    cases hidx : indexByte zipData nl with
    | none => simp
    | some idx =>
      have hlt := indexByte_lt _ _ _ hidx
      simp only
      cases hA : Atoi (List.take idx zipData) with
      | none => exact ih _ _ (by rw [List.length_drop]; omega)
      | some size =>
        simp only
        split
        · exact ih _ _ (by rw [List.length_drop]; omega)
        · split
          · simp
          · rename_i h0 h1
            apply ih
            rw [List.length_drop]
            simp only [wrapInt] at h1 ⊢
            omega

/-- The call `UnZip` always returns or panics. -/
theorem UnZip_ne_blocked (lib : Lib) (data : List Nat) : UnZip lib data ≠ .blocked := by
  unfold UnZip
  split
  · simp
  · simp
  · exact unzipLoop_ne_blocked _ _ _ (by omega)

theorem encode_cons (f : Field) (fs : List Field) :
    encode (f :: fs) = formatNat f.length ++ nl :: (f ++ nl :: encode fs) := by
  simp [encode, blocks, block]

theorem block_length (f : Field) :
    (block f).length = (formatNat f.length).length + 1 + f.length + 1 := by
  simp [block]
  omega

theorem length_le_blocks (fs : List Field) : fs.length ≤ (blocks fs).length := by
  induction fs with
  | nil => simp [blocks]
  | cons f fs ih =>
    simp only [blocks, List.map_cons, List.flatten_cons, List.length_append, List.length_cons,
      block_length] at ih ⊢
    omega

theorem encode_length_cons (f : Field) (fs : List Field) :
    (encode (f :: fs)).length = (formatNat f.length).length + 1 + f.length + 1 + (encode fs).length := by
  rw [encode_cons]
  simp only [List.length_append, List.length_cons]
  omega

/-- From the start of a frame (after the bytes `pre` already scanned, with the fields `resp`
already read) the loop reads every block and returns at the final empty line. -/
theorem parseLoop_frame (fs : List Field) :
    ∀ (fuel : Nat) (pre t : List Nat) (resp : List Field), fs.length < fuel → resp ++ fs ≠ [] →
      ((pre ++ (encode fs ++ t)).length : Int) ≤ maxInt →
      parseLoop fuel (pre ++ (encode fs ++ t)) pre.length resp =
        .ret (some (resp ++ fs), pre.length + (encode fs).length) := by
  induction fs with
  | nil =>
    intro fuel pre t resp hfuel hne _
    obtain ⟨fuel, rfl⟩ : ∃ k, fuel = k + 1 := ⟨fuel - 1, by simp at hfuel; omega⟩
    have h := parseLoop_end fuel pre t resp (by simpa using hne)
    simpa [encode, blocks] using h
  | cons f fs ih =>
    intro fuel pre t resp hfuel hne hlen
    obtain ⟨fuel, rfl⟩ : ∃ k, fuel = k + 1 := ⟨fuel - 1, by simp at hfuel; omega⟩
    have hbuf : pre ++ (encode (f :: fs) ++ t) =
        pre ++ (formatNat f.length ++ nl :: (f ++ (nl :: (encode fs ++ t)))) := by
      rw [encode_cons]; simp
    have hbuf2 : pre ++ (encode (f :: fs) ++ t) =
        (pre ++ (formatNat f.length ++ nl :: (f ++ [nl]))) ++ (encode fs ++ t) := by
      rw [encode_cons]; simp
    have hoff : pre.length + (formatNat f.length).length + 1 + f.length + 1 =
        (pre ++ (formatNat f.length ++ nl :: (f ++ [nl]))).length := by
      simp only [List.length_append, List.length_cons, List.length_nil]
      omega
    have hstep := parseLoop_block fuel pre f (nl :: (encode fs ++ t)) resp (by simp)
      (by rw [← hbuf]; exact hlen)
    rw [hbuf, hstep, ← hbuf, hbuf2, hoff]
    rw [ih fuel _ t (resp ++ [f]) (by simp at hfuel; omega) (by simp) (by rw [← hbuf2]; exact hlen)]
    rw [← hoff, encode_length_cons]
    simp only [List.append_assoc, List.singleton_append]
    congr 2
    omega

/-- On a buffer that stops inside a frame the loop returns the empty slice, whatever was
read before. -/
theorem parseLoop_prefix (fs : List Field) :
    ∀ (fuel k : Nat) (pre : List Nat) (resp : List Field), k < (encode fs).length → k < fuel →
      ((pre ++ encode fs).length : Int) ≤ maxInt →
      parseLoop fuel (pre ++ (encode fs).take k) pre.length resp = .ret (some [], 0) := by
  induction fs with
  | nil =>
    intro fuel k pre resp hk hfuel _
    obtain ⟨fuel, rfl⟩ : ∃ n, fuel = n + 1 := ⟨fuel - 1, by omega⟩
    have hk0 : k = 0 := by simp [encode, blocks] at hk; exact hk
    subst hk0
    exact parseLoop_no_newline fuel pre _ resp (by simp)
  | cons f fs ih =>
    intro fuel k pre resp hk hfuel hlen
    obtain ⟨fuel, rfl⟩ : ∃ n, fuel = n + 1 := ⟨fuel - 1, by omega⟩
    have hlen2 := hlen
    rw [List.length_append, encode_length_cons] at hlen2
    push_cast at hlen2
    rw [encode_cons]
    by_cases h1 : k ≤ (formatNat f.length).length
    · -- the length line is not complete
      rw [List.take_append_of_le_length h1]
      exact parseLoop_no_newline _ pre _ resp
        (fun hmem => nl_not_mem_formatNat _ (List.mem_of_mem_take hmem))
    · obtain ⟨j, rfl⟩ : ∃ j, k = (formatNat f.length).length + (j + 1) :=
        ⟨k - (formatNat f.length).length - 1, by omega⟩
      rw [List.take_append, List.take_succ_cons]
      by_cases h2 : j ≤ f.length
      · -- the payload and its newline are not complete
        rw [List.take_append_of_le_length h2]
        apply parseLoop_short
        · rw [List.length_take]; omega
        · push_cast; omega
      · obtain ⟨i, rfl⟩ : ∃ i, j = f.length + (i + 1) := ⟨j - f.length - 1, by omega⟩
        rw [List.take_append, List.take_succ_cons]
        rw [encode_length_cons] at hk
        have hi : i < (encode fs).length := by omega
        have hbuf2 : pre ++ (formatNat f.length ++ nl :: (f ++ nl :: List.take i (encode fs))) =
            (pre ++ (formatNat f.length ++ nl :: (f ++ [nl]))) ++ List.take i (encode fs) := by
          simp
        have hoff : pre.length + (formatNat f.length).length + 1 + f.length + 1 =
            (pre ++ (formatNat f.length ++ nl :: (f ++ [nl]))).length := by
          simp only [List.length_append, List.length_cons, List.length_nil]
          omega
        have hstep := parseLoop_block fuel pre f (nl :: List.take i (encode fs)) resp (by simp)
          (by
            simp only [List.length_append, List.length_cons, List.length_take]
            push_cast
            omega)
        rw [hstep, hbuf2, hoff]
        apply ih
        · exact hi
        · omega
        · simp only [List.length_append, List.length_cons, List.length_nil]
          push_cast
          omega

theorem nl_not_mem_blank (p : List Nat) (h : p.length = 0 ∨ (p.length = 1 ∧ p.head? = some cr)) :
    nl ∉ p := by
  rcases h with h | ⟨h1, h2⟩
  · have : p = [] := List.length_eq_zero.1 h
    simp [this]
  · match p, h1, h2 with
    | [b], _, h2 =>
      simp only [List.head?_cons, Option.some.injEq] at h2
      subst h2
      decide

/-- After any number of blank lines, a first line on which `Atoi` fails, or that is negative,
makes the loop return nil with nothing consumed. -/
theorem parseLoop_malformed (crs : List Bool) :
    ∀ (fuel : Nat) (pre line rest : List Nat), crs.length < fuel → nl ∉ line →
      ¬ (line.length = 0 ∨ (line.length = 1 ∧ line.head? = some cr)) → badLength line = true →
      parseLoop fuel (pre ++ (blankLines crs ++ (line ++ nl :: rest))) pre.length [] =
        .ret (none, 0) := by
  induction crs with
  | nil =>
    intro fuel pre line rest hfuel hnl hnb hbad
    obtain ⟨fuel, rfl⟩ : ∃ k, fuel = k + 1 := ⟨fuel - 1, by simp at hfuel; omega⟩
    simp only [blankLines, List.map_nil, List.flatten_nil, List.nil_append]
    rw [parseLoop_line fuel pre line rest [] hnl, if_neg hnb]
    unfold badLength at hbad
    cases hA : Atoi line with
    | none => rfl
    | some size =>
      rw [hA] at hbad
      have : size < 0 := by simpa using hbad
      simp [this]
  | cons c crs ih =>
    intro fuel pre line rest hfuel hnl hnb hbad
    obtain ⟨fuel, rfl⟩ : ∃ k, fuel = k + 1 := ⟨fuel - 1, by simp at hfuel; omega⟩
    have hfuel2 : crs.length < fuel := by simp at hfuel; omega
    cases c with
    | false =>
      have hb : pre ++ (blankLines (false :: crs) ++ (line ++ nl :: rest)) =
          pre ++ ([] ++ nl :: (blankLines crs ++ (line ++ nl :: rest))) := by
        simp [blankLines]
      have hb2 : pre ++ ([] ++ nl :: (blankLines crs ++ (line ++ nl :: rest))) =
          (pre ++ [nl]) ++ (blankLines crs ++ (line ++ nl :: rest)) := by simp
      have hoff : pre.length + 0 + 1 = (pre ++ [nl]).length := by simp
      rw [hb, parseLoop_line fuel pre [] _ [] (by simp)]
      simp only [List.length_nil, true_or, if_true]
      rw [hb2, hoff]
      exact ih fuel _ line rest hfuel2 hnl hnb hbad
    | true =>
      have hb : pre ++ (blankLines (true :: crs) ++ (line ++ nl :: rest)) =
          pre ++ ([cr] ++ nl :: (blankLines crs ++ (line ++ nl :: rest))) := by
        simp [blankLines]
      have hb2 : pre ++ ([cr] ++ nl :: (blankLines crs ++ (line ++ nl :: rest))) =
          (pre ++ [cr, nl]) ++ (blankLines crs ++ (line ++ nl :: rest)) := by simp
      have hoff : pre.length + 1 + 1 = (pre ++ [cr, nl]).length := by simp
      rw [hb, parseLoop_line fuel pre [cr] _ [] (by decide)]
      simp only [List.length_nil, List.length_singleton, List.head?_cons, and_self, or_true,
        if_true]
      rw [hb2, hoff]
      exact ih fuel _ line rest hfuel2 hnl hnb hbad

/-- The decoder rejects a buffer whose first non-blank line is not a length: it returns nil
and leaves the buffer as it was. -/
theorem parse_malformed (crs : List Bool) (line rest : List Nat) (hnl : nl ∉ line)
    (hnb : ¬ (line.length = 0 ∨ (line.length = 1 ∧ line.head? = some cr)))
    (hbad : badLength line = true) :
    parse (blankLines crs ++ (line ++ nl :: rest)) =
      .ret (none, blankLines crs ++ (line ++ nl :: rest)) := by
  have hfuel : crs.length < (blankLines crs ++ (line ++ nl :: rest)).length + 1 := by
    have : crs.length ≤ (blankLines crs).length := by
      induction crs with
      | nil => simp
      | cons c crs ih =>
        cases c <;> simp [blankLines] at ih ⊢ <;> omega
    simp only [List.length_append]
    omega
  have h := parseLoop_malformed crs _ [] line rest hfuel hnl hnb hbad
  simp only [List.nil_append, List.length_nil] at h
  simp only [parse, h, List.drop_zero]

/-- Decoding a buffer that starts with a whole frame of at least one field. -/
theorem parse_encode_append (fs : List Field) (t : List Nat) (hfs : fs ≠ [])
    (hlen : ((encode fs ++ t).length : Int) ≤ maxInt) :
    parse (encode fs ++ t) = .ret (some fs, t) := by
  have hfuel : fs.length < (encode fs ++ t).length + 1 := by
    have := length_le_blocks fs
    simp only [encode, List.length_append, List.length_cons, List.length_nil]
    omega
  have h := parseLoop_frame fs ((encode fs ++ t).length + 1) [] t [] hfuel (by simpa using hfs)
    (by simpa using hlen)
  simp only [List.nil_append, List.length_nil, Nat.zero_add] at h
  simp only [parse, h, List.drop_left]

/-- Decoding a buffer that holds only the first `k` bytes of a frame. -/
theorem parse_encode_take (fs : List Field) (k : Nat) (hk : k < (encode fs).length)
    (hlen : ((encode fs).length : Int) ≤ maxInt) :
    parse ((encode fs).take k) = .ret (some [], (encode fs).take k) := by
  have hfuel : k < ((encode fs).take k).length + 1 := by
    rw [List.length_take]
    omega
  have h := parseLoop_prefix fs (((encode fs).take k).length + 1) k [] [] hk hfuel
    (by simpa using hlen)
  simp only [List.nil_append, List.length_nil] at h
  simp only [parse, h, List.drop_zero]

/-- When `parse` returns nil, `recv` returns it at once with a nil error: no `Read` is made. -/
theorem recvLoop_of_nil (lib : Lib) (reads : List ReadResult) (buf buf1 : List Nat)
    (h : parse buf = .ret (none, buf1)) :
    Client.recvLoop lib reads buf = (.ret (none, none), buf1, reads) := by
  cases reads <;> simp [Client.recvLoop, h, Client.recvFrame, fields]

/-- One iteration of the loop of `UnZip` on a line `p` that ends in a newline. -/
theorem unzipLoop_line (fuel : Nat) (p r : List Nat) (resp : Option (List Field)) (hp : nl ∉ p) :
    unzipLoop (fuel + 1) (p ++ nl :: r) resp =
      match Atoi p with
      | none => unzipLoop fuel r resp
      | some size =>
        if size < 0 then unzipLoop fuel r resp
        else
          if wrapInt (size + (p.length : Int) + 1) < (p.length : Int) + 1 ∨
              wrapInt (size + (p.length : Int) + 1) > ((p ++ nl :: r).length : Int) then .panic
          else
            unzipLoop fuel ((p ++ nl :: r).drop (wrapInt ((p.length : Int) + 1 + size)).toNat)
              (appendField resp (r.take ((wrapInt (size + (p.length : Int) + 1)).toNat - (p.length + 1)))) := by
  have hdrop : (p ++ nl :: r).drop (p.length + 1) = r := by
    have : p ++ nl :: r = (p ++ [nl]) ++ r := by simp
    rw [this]
    have hl : p.length + 1 = (p ++ [nl]).length := by simp
    rw [hl]
    exact List.drop_left _ _
  rw [unzipLoop, indexByte_append_cons p r nl hp]
  simp only [List.take_left, hdrop]

/-- Two iterations of the loop of `UnZip` read one block: the first takes the field, the
second skips the newline that follows it as a line that is not a length. -/
theorem unzipLoop_block (fuel : Nat) (f r : List Nat) (resp : Option (List Field))
    (hlen : ((formatNat f.length ++ nl :: (f ++ nl :: r)).length : Int) ≤ maxInt) :
    unzipLoop (fuel + 2) (formatNat f.length ++ nl :: (f ++ nl :: r)) resp =
      unzipLoop fuel r (appendField resp f) := by
  simp only [List.length_append, List.length_cons] at hlen
  push_cast at hlen
  rw [unzipLoop_line (fuel + 1) (formatNat f.length) (f ++ nl :: r) resp (nl_not_mem_formatNat _)]
  have hf : (f.length : Int) ≤ maxInt := by omega
  rw [Atoi_formatNat _ hf]
  have hw1 : wrapInt ((f.length : Int) + ((formatNat f.length).length : Int) + 1) =
      (((formatNat f.length).length + 1 + f.length : Nat) : Int) := by
    rw [wrapInt_of_range] <;> push_cast <;> omega
  have hw2 : wrapInt (((formatNat f.length).length : Int) + 1 + (f.length : Int)) =
      (((formatNat f.length).length + 1 + f.length : Nat) : Int) := by
    rw [wrapInt_of_range] <;> push_cast <;> omega
  simp only [hw1, hw2, Int.toNat_ofNat]
  have h1 : ¬ ((f.length : Int) < 0) := by omega
  have h2 : ¬ ((((formatNat f.length).length + 1 + f.length : Nat) : Int) <
      ((formatNat f.length).length : Int) + 1 ∨
      (((formatNat f.length).length + 1 + f.length : Nat) : Int) >
        ((formatNat f.length ++ nl :: (f ++ nl :: r)).length : Int)) := by
    simp only [List.length_append, List.length_cons]
    push_cast
    omega
  have h3 : (formatNat f.length).length + 1 + f.length - ((formatNat f.length).length + 1) =
      f.length := by omega
  have h4 : (formatNat f.length ++ nl :: (f ++ nl :: r)).drop
      ((formatNat f.length).length + 1 + f.length) = nl :: r := by
    have : formatNat f.length ++ nl :: (f ++ nl :: r) =
        (formatNat f.length ++ [nl] ++ f) ++ nl :: r := by simp
    rw [this]
    have hl : (formatNat f.length).length + 1 + f.length =
        (formatNat f.length ++ [nl] ++ f).length := by
      simp only [List.length_append, List.length_cons, List.length_nil]
    rw [hl]
    exact List.drop_left _ _
  simp only [h1, h2, if_false, h3, h4, List.take_left]
  have h5 := unzipLoop_line fuel [] r (appendField resp f) (by simp)
  simp only [List.nil_append] at h5
  rw [h5]
  have h6 : Atoi [] = none := by decide
  rw [h6]

/-- The loop of `UnZip` on the blocks of `fs` appends `fs` to what it had. -/
theorem unzipLoop_blocks (fs : List Field) :
    ∀ (fuel : Nat) (resp : Option (List Field)), 2 * fs.length < fuel →
      ((blocks fs).length : Int) ≤ maxInt →
      unzipLoop fuel (blocks fs) resp = .ret (if fs = [] then resp else some (fields resp ++ fs)) := by
  induction fs with
  | nil =>
    intro fuel resp hfuel _
    obtain ⟨fuel, rfl⟩ : ∃ n, fuel = n + 1 := ⟨fuel - 1, by omega⟩
    simp [unzipLoop, blocks, indexByte]
  | cons f fs ih =>
    intro fuel resp hfuel hlen
    obtain ⟨fuel, rfl⟩ : ∃ k, fuel = k + 2 := ⟨fuel - 2, by simp at hfuel; omega⟩
    have hb : blocks (f :: fs) = formatNat f.length ++ nl :: (f ++ nl :: blocks fs) := by
      simp [blocks, block]
    rw [hb] at hlen ⊢
    rw [unzipLoop_block fuel f (blocks fs) resp hlen]
    have hlen2 : ((blocks fs).length : Int) ≤ maxInt := by
      simp only [List.length_append, List.length_cons] at hlen
      push_cast at hlen
      omega
    rw [ih fuel _ (by simp at hfuel; omega) hlen2]
    by_cases hfs : fs = []
    · subst hfs; simp [appendField, fields]
    · simp [hfs, appendField, fields]

/-- The block parser of `UnZip` recovers the fields from their blocks. -/
theorem UnZip_blocks (lib : Lib) (data : List Nat) (fs : List Field)
    (hgz : lib.gunzip data = .data (blocks fs)) (hlen : ((blocks fs).length : Int) ≤ maxInt) :
    UnZip lib data = .ret (if fs = [] then none else some fs) := by
  have hfuel : 2 * fs.length < (blocks fs).length + 1 := by
    clear hgz hlen
    induction fs with
    | nil => simp
    | cons f fs ih =>
      simp only [blocks, List.map_cons, List.flatten_cons, List.length_append, List.length_cons,
        block_length] at ih ⊢
      have := List.length_pos.2 (formatNat_ne_nil f.length)
      omega
  have h := unzipLoop_blocks fs _ none hfuel hlen
  simp only [UnZip, hgz, h]
  by_cases hfs : fs = [] <;> simp [hfs, fields]

/-- What `recv` does once the read buffer holds a whole frame whose status is not `zip`. -/
theorem recvLoop_of_frame (lib : Lib) (reads : List ReadResult) (f : Field) (fs : List Field)
    (hzip : f ≠ text ("zip")) (hlen : ((encode (f :: fs)).length : Int) ≤ maxInt) :
    Client.recvLoop lib reads (encode (f :: fs)) = (.ret (some (f :: fs), none), [], reads) := by
  have h := parse_encode_append (f :: fs) [] (by simp) (by simpa using hlen)
  rw [List.append_nil] at h
  cases reads <;> simp [Client.recvLoop, h, Client.recvFrame, fields, hzip]

/-- Partial reads seen from `recv`: however the socket cuts the encoding of a frame into
successive `Read` results, `recv` keeps reading while the buffer holds a proper prefix and
returns the frame, with a nil error and an empty buffer, once the last byte has arrived. -/
theorem recvLoop_chunks (lib : Lib) (f : Field) (fs : List Field) (hzip : f ≠ text ("zip"))
    (hlen : ((encode (f :: fs)).length : Int) ≤ maxInt) (chunks : List (List Nat)) :
    ∀ (buf : List Nat) (more : List ReadResult), buf ++ chunks.flatten = encode (f :: fs) →
      ∃ rest, Client.recvLoop lib (chunks.map ReadResult.data ++ more) buf =
        (.ret (some (f :: fs), none), [], rest) := by
  induction chunks with
  | nil =>
    intro buf more hbuf
    simp only [List.flatten_nil, List.append_nil] at hbuf
    subst hbuf
    exact ⟨more, by simpa using recvLoop_of_frame lib more f fs hzip hlen⟩
  | cons ch chunks ih =>
    intro buf more hbuf
    by_cases hq : ch ++ chunks.flatten = []
    · have hb : buf = encode (f :: fs) := by
        simp only [List.flatten_cons] at hbuf
        rw [hq, List.append_nil] at hbuf
        exact hbuf
      subst hb
      exact ⟨_, recvLoop_of_frame lib _ f fs hzip hlen⟩
    · have hsplit : buf ++ (ch ++ chunks.flatten) = encode (f :: fs) := by simpa using hbuf
      have hp : buf = (encode (f :: fs)).take buf.length := by rw [← hsplit]; simp
      have hk : buf.length < (encode (f :: fs)).length := by
        rw [← hsplit, List.length_append]
        have := List.length_pos.2 hq
        omega
      have h1 := parse_encode_take (f :: fs) buf.length hk hlen
      rw [← hp] at h1
      obtain ⟨rest, hrest⟩ := ih (buf ++ ch) more (by simpa using hbuf)
      refine ⟨rest, ?_⟩
      simp only [List.map_cons, List.cons_append, Client.recvLoop, h1, fields]
      simpa using hrest

theorem recv_of_nil (lib : Lib) (c : Client) (h : parse c.recv_buf = .ret (none, c.recv_buf)) :
    Client.recv lib c = (.ret (none, none), c) := by
  simp only [Client.recv, recvLoop_of_nil lib c.sock.reads c.recv_buf c.recv_buf h]

/-- When the request is sent and `recv` returns a reply with a nil error, `ProcessCmd`
returns what its classification of the reply returns. -/
theorem ProcessCmd_eq_classify (lib : Lib) (c : Client) (cmd : Field) (args : List Value)
    (resp : Option (List Field)) (hc : c.connected = true)
    (hsend : (send c.sock (.str cmd :: args)).1 = none)
    (hrecv : (Client.recv lib { c with sock := (send c.sock (.str cmd :: args)).2 }).1 =
      .ret (resp, none)) :
    Client.ProcessCmd lib c cmd args =
      Client.classify (Client.recv lib { c with sock := (send c.sock (.str cmd :: args)).2 }).2
        cmd (fields resp) := by
  unfold Client.ProcessCmd
  rw [if_pos hc]
  rcases hs : send c.sock (.str cmd :: args) with ⟨e, sock⟩
  rw [hs] at hsend hrecv
  simp only at hsend hrecv
  subst hsend
  rcases hr : Client.recv lib { c with sock := sock } with ⟨o, c1⟩
  rw [hr] at hrecv
  simp only at hrecv
  subst hrecv
  simp only [hr]

/-- The same for `UnixClient.ProcessCmd`. -/
theorem UnixClient_ProcessCmd_eq_classify (lib : Lib) (now : Int) (c : UnixClient) (cmd : Field)
    (args : List Value) (resp : Option (List Field)) (hc : c.connected = true)
    (hsend : (send c.sock (.str cmd :: args)).1 = none)
    (hrecv : (UnixClient.recv
      { c with last_time := now, reuse := false, count := c.count + 1,
               sock := (send c.sock (.str cmd :: args)).2 }).1 = .ret (resp, none)) :
    (UnixClient.ProcessCmd lib now c cmd args).1 = UnixClient.classify cmd (fields resp) := by
  unfold UnixClient.ProcessCmd
  rw [if_pos hc]
  rcases hs : send c.sock (.str cmd :: args) with ⟨e, sock⟩
  rw [hs] at hsend hrecv
  simp only at hsend hrecv
  subst hsend
  simp only
  rcases hr : UnixClient.recv
    { c with last_time := now, reuse := false, count := c.count + 1, sock := sock } with ⟨o, c1⟩
  rw [hr] at hrecv
  simp only at hrecv
  subst hrecv
  simp only [hs, hr]

theorem lookup_filter_ne (m : GoMap) (k key : Field) (h : key ≠ k) :
    List.lookup key (m.filter (fun kv => kv.1 ≠ k)) = List.lookup key m := by
  induction m with
  | nil => rfl
  | cons kv m ih =>
    rcases kv with ⟨a, b⟩
    by_cases ha : a = k
    · subst ha
      have hka : (key == a) = false := by simpa using h
      simp only [List.filter_cons, List.lookup_cons, hka, ne_eq, not_true_eq_false,
        decide_False, Bool.false_eq_true, if_false]
      exact ih
    · have : decide (a ≠ k) = true := by simpa using ha
      simp only [List.filter_cons, this, if_true, List.lookup_cons, ih]

theorem GoMap.get_set (m : GoMap) (k v key : Field) :
    (m.set k v).get key = if key = k then some v else m.get key := by
  by_cases h : key = k
  · subst h
    simp [GoMap.get, GoMap.set]
  · have hk : (key == k) = false := by simpa using h
    simp only [GoMap.get, GoMap.set, List.lookup_cons, hk, if_neg h]
    exact lookup_filter_ne m k key h

theorem flatPairs_length (pairs : List (Field × Field)) :
    (flatPairs pairs).length = 2 * pairs.length := by
  induction pairs with
  | nil => rfl
  | cons kv pairs ih =>
    rcases kv with ⟨k, v⟩
    simp only [flatPairs, List.length_cons, ih]
    omega

/-- The loop that fills the map never indexes out of range on an even number of data fields,
and binds every key to the value of its last pair. -/
theorem fillMap_flatPairs (pairs : List (Field × Field)) :
    ∀ list : GoMap, ∃ m, fillMap (flatPairs pairs) list = some m ∧
      ∀ key, m.get key = match lastValue pairs key with
        | some x => some x
        | none => list.get key := by
  induction pairs with
  | nil => intro list; exact ⟨list, rfl, fun _ => rfl⟩
  | cons kv pairs ih =>
    intro list
    rcases kv with ⟨k, v⟩
    obtain ⟨m, hm, hget⟩ := ih (list.set k v)
    refine ⟨m, by simpa [flatPairs, fillMap] using hm, ?_⟩
    intro key
    rw [hget key]
    simp only [lastValue]
    cases lastValue pairs key with
    | some x => rfl
    | none =>
      simp only [GoMap.get_set]
      by_cases h : key = k <;> simp [h]

theorem boolCmds_not_set : ∀ cmd ∈ boolCmds, ¬ (cmd = text ("set") ∨ cmd = text ("del")) := by
  decide

theorem foldl_writeBlock (l : List Field) (buf : List Nat) :
    l.foldl writeBlock buf = buf ++ blocks l := by
  induction l generalizing buf with
  | nil => simp [blocks]
  | cons f l ih =>
    simp only [List.foldl_cons, ih, writeBlock]
    simp [blocks, block]

theorem sendLoop_supported (args : List Value) :
    ∀ buf : List Nat, args.all Value.supported = true →
      sendLoop args buf = .ok (buf ++ blocks (textForms args)) := by
  induction args with
  | nil => intro buf _; simp [sendLoop, textForms, blocks]
  | cons a args ih =>
    intro buf h
    simp only [List.all_cons, Bool.and_eq_true] at h
    have hrest : ∀ b : List Nat, sendLoop args b = .ok (b ++ blocks (textForms args)) :=
      fun b => ih b h.2
    have hsplit : ∀ l : List Field, blocks (l ++ textForms args) = blocks l ++ blocks (textForms args) := by
      intro l; simp [blocks]
    cases a with
    | other => simp [Value.supported] at h
    | strs l =>
      simp only [sendLoop, argCase, hrest, foldl_writeBlock, textForms, List.map_cons,
        List.flatten_cons, Value.texts]
      rw [← textForms, hsplit]; simp
    | bool b =>
      cases b <;>
      · simp only [sendLoop, argCase, hrest, writeBlock, textForms, List.map_cons,
          List.flatten_cons, Value.texts]
        rw [← textForms, hsplit]; simp [blocks, block]
    | _ =>
      simp only [sendLoop, argCase, hrest, writeBlock, textForms, List.map_cons,
        List.flatten_cons, Value.texts]
      rw [← textForms, hsplit]; simp [blocks, block]

theorem sendLoop_unsupported (args : List Value) :
    ∀ buf : List Nat, args.all Value.supported = false → sendLoop args buf = .error .badArguments := by
  induction args with
  | nil => intro buf h; simp at h
  | cons a args ih =>
    intro buf h
    cases a with
    | other => simp [sendLoop, argCase]
    | _ =>
      simp only [List.all_cons, Value.supported, Bool.true_and] at h
      simp only [sendLoop, argCase]
      exact ih _ h

/-- The digits `fmt.Sprintf("%d", n)` prints are the base-ten digits of `n`. -/
theorem decimalDigits_eq_digits (fuel : Nat) :
    ∀ n : Nat, n < fuel → 0 < n →
      decimalDigits fuel n = (Nat.digits 10 n).reverse.map (fun d => 48 + d) := by
  induction fuel with
  | zero => intro n h; omega
  | succ fuel ih =>
    intro n h hn
    unfold decimalDigits
    split
    · rename_i hlt
      rw [Nat.digits_of_lt 10 n (Nat.pos_iff_ne_zero.1 hn) hlt]
      rfl
    · rw [Nat.digits_def' (by decide) hn, ih (n / 10) (by omega) (by omega)]
      simp

theorem formatNat_eq_decimalNat (n : Nat) : formatNat n = decimalNat n := by
  unfold decimalNat
  split
  · rename_i h0
    subst h0
    rfl
  · exact decimalDigits_eq_digits (n + 1) n (Nat.lt_succ_self n) (by omega)

theorem formatInt_eq_decimalInt (i : Int) : formatInt i = decimalInt i := by
  unfold formatInt decimalInt
  split <;> simp [formatNat_eq_decimalNat]

theorem block_eq_refBlock (f : Field) : block f = refBlock f := by
  simp [block, refBlock, formatNat_eq_decimalNat, nl]

theorem texts_eq_refTexts (a : Value) : a.texts = a.refTexts := by
  cases a with
  | bool b => cases b <;> rfl
  | int i => simp [Value.texts, Value.refTexts, formatInt_eq_decimalInt]
  | int64 i => simp [Value.texts, Value.refTexts, formatInt_eq_decimalInt]
  | _ => rfl

theorem encode_eq_refEncode (args : List Value) : encode (textForms args) = refEncode args := by
  have hb : block = refBlock := funext block_eq_refBlock
  have ht : Value.texts = Value.refTexts := funext texts_eq_refTexts
  simp only [encode, blocks, textForms, refEncode, hb, ht, nl]

theorem send_eq (sock : Sock) (args : List Value) :
    send sock args =
      if args.all Value.supported then
        (sock.writeErr, { sock with writes := sock.writes ++ [encode (textForms args)] })
      else (some .badArguments, sock) := by
  cases h : args.all Value.supported with
  | true => simp [send, sendLoop_supported args [] h, encode]
  | false => simp [send, sendLoop_unsupported args [] h]

/-! ## Lemmas on the state of the client -/

theorem okPair_not_badResponse (cmd x : Field) (r : List Field) :
    (okPair cmd x).2 ≠ some (.badResponse r) := by
  unfold okPair
  split
  · simp
  · split
    · split <;> simp
    · split
      · unfold ParseInt64
        split
        · simp
        · split
          · simp
          · split <;> simp
      · simp

/-- The only way `ProcessCmd` ends in a bad-response error is its last statement, after the
test of line 192. -/
theorem classify_badResponse (c : Client) (cmd : Field) (resp r : List Field)
    (h : (Client.classify c cmd resp).1 = .ret (.nil, some (.badResponse r))) :
    r = resp ∧
      (Client.classify c cmd resp).2 =
        if resp.length = 2 ∧ contains (resp.getD 1 []) (text ("connection")) then
          { c.Close with retryStarted := c.retryStarted + 1 }
        else c := by
  unfold Client.classify at h ⊢
  split at h
  · simp only [Outcome.ret.injEq] at h
    exact absurd (congrArg Prod.snd h) (okPair_not_badResponse _ _ _)
  · split at h
    · simp at h
    · split at h
      · split at h
        · split at h <;> simp at h
        · simp at h
      · rename_i h1 h2 h3
        simp only [Outcome.ret.injEq, Prod.mk.injEq, Option.some.injEq, GoError.badResponse.injEq,
          true_and] at h
        simp only [h1, h2, h3, if_false]
        exact ⟨h.symm, trivial⟩

theorem recv_keeps_state (lib : Lib) (c : Client) :
    (Client.recv lib c).2.connected = c.connected ∧
      (Client.recv lib c).2.retryStarted = c.retryStarted ∧
      (Client.recv lib c).2.retry = c.retry := by
  simp [Client.recv]

/-- The loop of `parse` returns nil only through `return nil`, where nothing is consumed. -/
theorem parseLoop_nil_consumes_nothing :
    ∀ (fuel : Nat) (buf : List Nat) (offset : Nat) (resp : List Field) (n : Nat),
      parseLoop fuel buf offset resp = .ret (none, n) → n = 0 := by
  intro fuel
  induction fuel with
  | zero => intro buf offset resp n h; simp [parseLoop] at h
  | succ fuel ih =>
    intro buf offset resp n h
    unfold parseLoop at h
    split at h
    · simp at h
    · simp only at h
      split at h
      · split at h
        · exact ih _ _ _ _ h
        · simp at h
      · split at h
        · simp at h; exact h.symm
        · split at h
          · simp at h; exact h.symm
          · split at h
            · simp at h
            · split at h
              · simp at h
              · exact ih _ _ _ _ h

/-- When `parse` returns nil the read buffer is as it was. -/
theorem parse_nil_keeps_buffer (buf b : List Nat) (h : parse buf = .ret (none, b)) : b = buf := by
  unfold parse at h
  split at h
  · rename_i resp consumed hloop
    simp only [Outcome.ret.injEq, Prod.mk.injEq] at h
    obtain ⟨h1, h2⟩ := h
    subst h1
    have := parseLoop_nil_consumes_nothing _ _ _ _ _ hloop
    subst this
    simpa using h2.symm
  · simp at h
  · simp at h

/-! ## Lemmas on the fan-out -/

theorem slice_length {α : Type} (l : List α) (lo hi : Nat) (h1 : lo ≤ hi) (h2 : hi ≤ l.length) :
    (slice l lo hi).map List.length = some (hi - lo) := by
  simp only [slice, h1, h2, and_self, if_true, Option.map_some', List.length_take,
    List.length_drop, Option.some.injEq]
  omega

/-- Every worker but the last is handed `len(parts) / connNum` triples. -/
theorem chunkOf_length_inner (parts : List HashData) (w i : Nat) (hi : 1 ≤ i) (hiw : i < w) :
    (chunkOf parts w i).map List.length = some (parts.length / w) := by
  obtain ⟨j, rfl⟩ : ∃ j, i = j + 1 := ⟨i - 1, by omega⟩
  have hne : j + 1 ≠ w := by omega
  unfold chunkOf
  have hdm := Nat.div_mul_le_self parts.length w
  generalize parts.length / w = p at hdm ⊢
  have hle : p * (j + 1) ≤ parts.length :=
    Nat.le_trans (Nat.mul_le_mul_left _ (Nat.le_of_lt hiw)) hdm
  have hsucc : p * (j + 1) = p * j + p := Nat.mul_succ _ _
  by_cases h1 : j + 1 = 1
  · rw [if_pos h1, slice_length _ _ _ (Nat.zero_le _) hle]
    have hj : j = 0 := by omega
    subst hj
    simp
  · rw [if_neg h1, if_neg hne, Nat.add_sub_cancel,
      slice_length _ _ _ (by rw [hsucc]; omega) hle]
    rw [hsucc]
    simp

/-- The last worker is handed what is left: `len(parts) / connNum` triples and the
remainder of the division. -/
theorem chunkOf_length_last (parts : List HashData) (w : Nat) (hw : 1 ≤ w) :
    (chunkOf parts w w).map List.length = some (parts.length / w + parts.length % w) := by
  obtain ⟨j, rfl⟩ : ∃ j, w = j + 1 := ⟨w - 1, by omega⟩
  unfold chunkOf
  have hmod := Nat.div_add_mod parts.length (j + 1)
  have hr := Nat.mod_lt parts.length (Nat.succ_pos j)
  rw [Nat.mul_comm] at hmod
  generalize parts.length / (j + 1) = p at hmod ⊢
  generalize parts.length % (j + 1) = r at hmod hr ⊢
  have hsucc : p * (j + 1) = p * j + p := Nat.mul_succ _ _
  by_cases h1 : j + 1 = 1
  · have hj : j = 0 := by omega
    subst hj
    have hp1 : p * (0 + 1) = p := by simp
    rw [if_pos h1, slice_length _ _ _ (Nat.zero_le _) (by omega)]
    congr 1
    omega
  · rw [if_neg h1, if_pos rfl, Nat.add_sub_cancel,
      slice_length _ _ _ (by omega) (Nat.le_refl _)]
    congr 1
    omega

theorem chunkSizes_eq (parts : List HashData) (w : Nat) (hw : 1 ≤ w) :
    chunkSizes parts w =
      List.replicate (w - 1) (parts.length / w) ++ [parts.length / w + parts.length % w] := by
  obtain ⟨j, rfl⟩ : ∃ j, w = j + 1 := ⟨w - 1, by omega⟩
  have hlast := chunkOf_length_last parts (j + 1) hw
  have hinner : ∀ k, k < j →
      ((chunkOf parts (j + 1) (k + 1)).getD []).length = parts.length / (j + 1) := by
    intro k hk
    have h := chunkOf_length_inner parts (j + 1) (k + 1) (by omega) (by omega)
    cases hc : chunkOf parts (j + 1) (k + 1) with
    | none => rw [hc] at h; simp at h
    | some ch => rw [hc] at h; simpa using h
  have hl : ((chunkOf parts (j + 1) (j + 1)).getD []).length =
      parts.length / (j + 1) + parts.length % (j + 1) := by
    cases hc : chunkOf parts (j + 1) (j + 1) with
    | none => rw [hc] at hlast; simp at hlast
    | some ch => rw [hc] at hlast; simpa using hlast
  simp only [chunkSizes, List.range_succ, List.map_append, List.map_cons, List.map_nil, hl,
    Nat.add_sub_cancel]
  congr 1
  apply List.ext_getElem
  · simp
  · intro n h1 h2
    simp only [List.length_map, List.length_range] at h1
    simp [hinner n h1]

theorem chunkSizes_sum (parts : List HashData) (w : Nat) (hw : 1 ≤ w) :
    (chunkSizes parts w).sum = parts.length := by
  rw [chunkSizes_eq parts w hw]
  obtain ⟨j, rfl⟩ : ∃ j, w = j + 1 := ⟨w - 1, by omega⟩
  have hmod := Nat.div_add_mod parts.length (j + 1)
  generalize parts.length / (j + 1) = p at hmod ⊢
  generalize parts.length % (j + 1) = r at hmod ⊢
  have hsucc : (j + 1) * p = j * p + p := Nat.succ_mul _ _
  simp only [List.sum_append, List.sum_replicate, Nat.add_sub_cancel, smul_eq_mul, List.sum_cons,
    List.sum_nil]
  omega

/-- The value `MultiHashSet` returns does not depend on what the workers did: when it
returns, it returns the empty `results` and a nil error. -/
theorem MultiHashSet_result (lib : Lib) (c : Client) (dials : Nat → Except GoError Sock)
    (parts : List HashData) (connNum : Int) :
    Client.MultiHashSet lib c dials parts connNum = .panic ∨
      Client.MultiHashSet lib c dials parts connNum = .blocked ∨
      Client.MultiHashSet lib c dials parts connNum = .ret (some [], none) := by
  unfold Client.MultiHashSet
  simp only
  split
  · exact Or.inl rfl
  · split
    · exact Or.inr (Or.inl rfl)
    · split
      · exact Or.inl rfl
      · split
        · exact Or.inl rfl
        · split
          · exact Or.inr (Or.inl rfl)
          · split
            · exact Or.inl rfl
            · exact Or.inr (Or.inr rfl)

/-- With two workers and a dial that fails, the closing loop of `MultiHashSet` calls `Close`
on a client whose `sock` is nil: the call panics although the `hset` went well. -/
theorem MultiHashSet_panics_after_failed_dial :
    Client.MultiHashSet plainLib (Client.connectedTo [] [.data (text ("2\nok\n1\n1\n\n"))])
        (fun _ => .error (.io (text ("dial tcp: connection refused"))))
        [HashData.mk (text ("h")) (text ("k")) (text ("v"))] 2 = .panic := by
  decide

/-! ## Lemmas on the pool -/

theorem removeAt_eq (pool : List UnixClient) (i : Nat) (h : i < pool.length) :
    removeAt pool i = pool.take i ++ pool.drop (i + 1) := by
  unfold removeAt
  split
  · rfl
  · match pool, h with
    | [x], h =>
      have hi : i = 0 := by simpa using h
      subst hi
      rfl
    | x :: y :: rest, _ =>
      rename_i hlen
      simp at hlen

/-- The loop of the sweep, from the index `k - 1` down, never indexes out of range; it drops
the expired members among the first `k` and closes them. -/
theorem recycleLoop_eq (now timeout : Int) :
    ∀ (k : Nat) (pool closed : List UnixClient), k ≤ pool.length →
      recycleLoop now timeout k pool closed =
        .ret ((pool.take k).filter (fun v => !expired now timeout v) ++ pool.drop k,
          ((pool.take k).filter (expired now timeout)).map UnixClient.Close ++ closed) := by
  intro k
  induction k with
  | zero => intro pool closed _; simp [recycleLoop]
  | succ k ih =>
    intro pool closed hk
    have hlt : k < pool.length := hk
    have hget : pool[k]? = some pool[k] := List.getElem?_eq_getElem hlt
    have htake : pool.take (k + 1) = pool.take k ++ [pool[k]] := by
      rw [List.take_succ, hget]; rfl
    have hdrop : pool.drop k = pool[k] :: pool.drop (k + 1) := List.drop_eq_getElem_cons hlt
    have hlen : (pool.take k).length = k := by rw [List.length_take]; omega
    unfold recycleLoop
    rw [hget]
    simp only
    by_cases hex : expired now timeout pool[k] = true
    · rw [if_pos hex, removeAt_eq pool k hlt]
      rw [ih _ _ (by rw [List.length_append, hlen]; omega)]
      have h1 : (pool.take k ++ pool.drop (k + 1)).take k = pool.take k := by
        rw [List.take_append_of_le_length (by omega)]
        rw [List.take_of_length_le (by omega)]
      have h2 : (pool.take k ++ pool.drop (k + 1)).drop k = pool.drop (k + 1) := by
        have := List.drop_left (pool.take k) (pool.drop (k + 1))
        rwa [hlen] at this
      rw [h1, h2, htake]
      simp only [List.filter_append, List.filter_cons, List.filter_nil, hex, Bool.not_true,
        Bool.false_eq_true, if_false, if_true, List.append_nil, List.map_append, List.map_cons,
        List.map_nil, List.append_assoc, List.singleton_append]
    · rw [if_neg hex]
      rw [ih _ _ (Nat.le_of_lt hlt)]
      have hex2 : expired now timeout pool[k] = false := by simpa using hex
      rw [htake, hdrop]
      simp only [List.filter_append, List.filter_cons, List.filter_nil, hex2, Bool.not_false,
        Bool.false_eq_true, if_false, if_true, List.append_nil, List.append_assoc,
        List.singleton_append]

/-- One pass of the sweep keeps exactly the members that are not expired, in their order,
and closes the others. -/
theorem Recycle_eq (db : SSDBUnix) (now : Int) :
    db.Recycle now =
      .ret ({ db with connect_pool := db.connect_pool.filter (fun v => !expired now db.timeout v) },
        (db.connect_pool.filter (expired now db.timeout)).map UnixClient.Close) := by
  unfold SSDBUnix.Recycle
  rw [recycleLoop_eq now db.timeout _ _ _ (Nat.le_refl _)]
  simp

theorem wrapInt_of_bounds (x : Int) (h0 : minInt ≤ x) (h1 : x ≤ maxInt) : wrapInt x = x := by
  simp only [maxInt, minInt] at h0 h1
  unfold wrapInt
  omega

/-- For clock readings that are Unix times the `int64` subtraction of the sweep is exact. -/
theorem expired_eq (now timeout : Int) (v : UnixClient) (hnow : 0 ≤ now ∧ now ≤ maxInt)
    (hv : 0 ≤ v.last_time ∧ v.last_time ≤ maxInt) :
    (!expired now timeout v) = alive now timeout v := by
  unfold alive
  have hw : wrapInt (now - v.last_time) = now - v.last_time := by
    apply wrapInt_of_bounds <;> simp only [maxInt, minInt] at * <;> omega
  unfold expired
  rw [hw]
  cases v.connected
  · rfl
  · by_cases h : now - v.last_time ≤ timeout
    · have h2 : ¬ (now - v.last_time > timeout) := by omega
      rw [decide_eq_true h, decide_eq_false h2]
      rfl
    · have h2 : now - v.last_time > timeout := by omega
      rw [decide_eq_false h, decide_eq_true h2]
      rfl

theorem poolStep_size (lib : Lib) (ip : Field) (port : Int) (M : Option SSDBUnix) (e : PoolEvent) :
    poolSize (poolStep lib ip port M e) ≤ poolSize M + acquisitions [e] := by
  cases e with
  | acquire auth now sock =>
    simp only [poolStep, UnixConnect, acquisitions, List.countP_cons_of_pos, List.countP_nil]
    cases M with
    | none =>
      split <;> simp [poolSize, SSDBUnixInit]
    | some db =>
      split <;> simp [poolSize]
  | sweep now =>
    cases M with
    | none => simp [poolStep, poolSize]
    | some db =>
      simp only [poolStep, Recycle_eq, poolSize]
      exact Nat.le_trans (List.length_filter_le _ _) (Nat.le_add_right _ _)

theorem poolRun_size (lib : Lib) (ip : Field) (port : Int) (es : List PoolEvent) :
    ∀ M : Option SSDBUnix,
      poolSize (poolRun lib ip port M es) ≤ poolSize M + acquisitions es := by
  induction es with
  | nil => intro M; simp [poolRun]
  | cons e es ih =>
    intro M
    have h1 := poolStep_size lib ip port M e
    have h2 := ih (poolStep lib ip port M e)
    have h3 : acquisitions (e :: es) = acquisitions [e] + acquisitions es := by
      simp only [acquisitions]
      rw [← List.countP_append]
      rfl
    simp only [poolRun, List.foldl_cons] at h2 ⊢
    omega

/-- Acquisitions without a password, with no sweep between them, all stay in the pool, and
`max_connect` keeps the value 100 it is given on first use. -/
theorem poolRun_acquire (lib : Lib) (ip : Field) (port : Int) (now : Int) (sock : Sock)
    (n : Nat) :
    ∀ M : Option SSDBUnix,
      poolSize (poolRun lib ip port M (List.replicate n (.acquire [] now sock))) =
        poolSize M + n ∧
      (poolRun lib ip port M (List.replicate (n + 1) (.acquire [] now sock))).map
        SSDBUnix.max_connect = some ((M.getD (SSDBUnixInit ip port 100)).max_connect) := by
  induction n with
  | zero =>
    intro M
    refine ⟨by simp [poolRun], ?_⟩
    cases M <;> simp [poolRun, poolStep, UnixConnect, UnixClient.Connect, UnixClient.fresh]
  | succ n ih =>
    intro M
    have hstep : ∀ M : Option SSDBUnix,
        poolStep lib ip port M (.acquire [] now sock) =
          some { (M.getD (SSDBUnixInit ip port 100)) with
            connect_pool := (M.getD (SSDBUnixInit ip port 100)).connect_pool ++
              [{ UnixClient.fresh [] with
                  last_time := now, sock := sock, reuse := true, connected := true }] } := by
      intro M
      simp [poolStep, UnixConnect, UnixClient.Connect, UnixClient.fresh]
    obtain ⟨h1, h2⟩ := ih (poolStep lib ip port M (.acquire [] now sock))
    refine ⟨?_, ?_⟩
    · simp only [List.replicate_succ, poolRun, List.foldl_cons] at h1 ⊢
      rw [h1, hstep]
      cases M <;> simp [poolSize, SSDBUnixInit] <;> omega
    · rw [List.replicate_succ]
      simp only [poolRun, List.foldl_cons] at h2 ⊢
      rw [h2, hstep]
      cases M <;> simp

/-! ## Lemmas on reconnecting -/

/-- While the flag `retry` is set, a `RetryConnect` that starts returns at once: it does not
enter the loop and does not dial. -/
theorem enter_while_retry (lib : Lib) (s : Conn) (i : Nat) (hretry : s.c.retry = true)
    (htask : s.tasks[i]? = some Task.spawned) :
    Conn.step lib s (.enter i) = { s with tasks := s.tasks.set i Task.returned } := by
  simp [Conn.step, htask, hretry]

/-- A successful dial clears the flag `retry` before the loop of `RetryConnect` has seen
`connected`, whatever the authentication does next. -/
theorem Connect_clears_retry (lib : Lib) (c : Client) (sock : Sock) (hpw : c.Password = []) :
    Client.Connect lib c (.ok sock) =
      (.ret none, { c with sock := sock, connected := true, retry := false }) := by
  simp [Client.Connect, hpw]

/-! ## The claims -/

/-- C1, as stated, fails for the empty argument list. `send` on no arguments writes the single
byte `\n`; `parse` on a read buffer holding exactly that byte skips it as a leading blank
line and returns the empty non-nil slice, which `recv` takes for "not ready", and consumes
nothing: no complete frame is returned. -/
theorem C1_empty_list_not_a_frame :
    (send ⟨[], none, [], false⟩ []).2.writes = [text ("\n")] ∧
      ¬ ∃ r, parse ([] ++ text ("\n")) = .ret r ∧ isFrame r.1 = true ∧ fields r.1 = textForms [] := by
  refine ⟨by decide, ?_⟩
  rintro ⟨r, hr, hframe, -⟩
  have hp : parse ([] ++ text ("\n")) = .ret (some [], text ("\n")) := by decide
  rw [hp] at hr
  cases hr
  simp [isFrame] at hframe

/-- C1, amended. For every list of supported values `send` writes the encoding of their text
forms (lists of text flattened). When there is at least one text form, `parse` on an empty
read buffer filled with exactly those bytes returns a complete frame whose fields are the
text forms in order, and empties the buffer. When there is none (the empty list, or only
empty lists of text) the bytes are a single newline, and `parse` returns the empty slice
("not ready") and consumes nothing. The encoding is taken to be no longer than the largest
`int`, as every Go byte slice is. -/
theorem C1_round_trip (sock : Sock) (args : List Value)
    (hsup : args.all Value.supported = true)
    (hlen : ((encode (textForms args)).length : Int) ≤ maxInt) :
    (send sock args).2.writes = sock.writes ++ [encode (textForms args)] ∧
      (textForms args ≠ [] →
        parse ([] ++ encode (textForms args)) = .ret (some (textForms args), []) ∧
          isFrame (some (textForms args)) = true) ∧
      (textForms args = [] →
        encode (textForms args) = [nl] ∧
          parse ([] ++ encode (textForms args)) = .ret (some [], [nl])) := by
  refine ⟨?_, ?_, ?_⟩
  · rw [send_eq, hsup]; rfl
  · intro hne
    have h := parse_encode_append (textForms args) [] hne (by simpa using hlen)
    rw [List.append_nil] at h
    refine ⟨by simpa using h, ?_⟩
    cases hfs : textForms args with
    | nil => exact absurd hfs hne
    | cons f fs => rfl
  · intro he
    rw [he]
    exact ⟨by decide, by decide⟩

/-- Witness of C1 (amended): the request `get`, `k` with an integer, a boolean, null and a
list of two texts. -/
theorem C1_round_trip_witness :
    (send ⟨[], none, [], false⟩ [.str (text ("get")), .int (-12), .bool true, .nil,
        .strs [text ("a\nb"), []]]).2.writes =
      [] ++ [encode (textForms [.str (text ("get")), .int (-12), .bool true, .nil,
        .strs [text ("a\nb"), []]])] ∧
    parse ([] ++ encode (textForms [.str (text ("get")), .int (-12), .bool true, .nil,
        .strs [text ("a\nb"), []]])) =
      .ret (some [text ("get"), text ("-12"), text ("1"), [], text ("a\nb"), []], []) :=
  have h := C1_round_trip ⟨[], none, [], false⟩ [.str (text ("get")), .int (-12), .bool true,
    .nil, .strs [text ("a\nb"), []]] (by decide) (by decide)
  ⟨h.1, (h.2.1 (by decide)).1⟩

/-- C2. Partial reads. For every frame `fs` with at least one field and every split of its
encoded bytes into a proper prefix `p` and a non-empty rest `q`: `parse` on a buffer holding
`p` returns the empty slice (Incomplete) and leaves the buffer holding `p`; once the buffer
holds all the bytes `p ++ q`, `parse` returns the frame `fs`, the same as decoding the whole
encoding at once, and leaves the buffer empty. The encoding is taken to be no longer than the
largest `int`, as every Go byte slice is. -/
theorem C2_partial_reads (fs : List Field) (p q : List Nat) (hfs : fs ≠ [])
    (hsplit : p ++ q = encode fs) (hq : q ≠ [])
    (hlen : ((encode fs).length : Int) ≤ maxInt) :
    parse p = .ret (some [], p) ∧
      parse (p ++ q) = .ret (some fs, []) ∧ parse (p ++ q) = parse (encode fs) := by
  have hp : p = (encode fs).take p.length := by rw [← hsplit]; simp
  have hk : p.length < (encode fs).length := by
    rw [← hsplit, List.length_append]
    have := List.length_pos.2 hq
    omega
  have h1 := parse_encode_take fs p.length hk hlen
  rw [← hp] at h1
  have h2 := parse_encode_append fs [] hfs (by simpa using hlen)
  rw [List.append_nil] at h2
  exact ⟨h1, by rw [hsplit]; exact h2, by rw [hsplit]⟩

/-- Witness of C2: the reply `ok`, `1` cut after its sixth byte. -/
theorem C2_partial_reads_witness :
    parse (text ("2\nok\n1")) = .ret (some [], text ("2\nok\n1")) ∧
      parse (text ("2\nok\n1") ++ text ("\n1\n\n")) = .ret (some [text ("ok"), text ("1")], []) ∧
      parse (text ("2\nok\n1") ++ text ("\n1\n\n")) = parse (encode [text ("ok"), text ("1")]) :=
  C2_partial_reads [text ("ok"), text ("1")] (text ("2\nok\n1")) (text ("\n1\n\n"))
    (by decide) (by decide) (by decide) (by decide)

/-- C3. Exact consumption. For every non-empty field list `fs` and every byte string `t`,
`parse` on a read buffer holding `encode fs` followed by `t` returns `fs` and leaves the
buffer holding exactly `t`; when `t` itself starts with the encoding of a non-empty `gs`, a
second `parse`, on the buffer the first one left, returns `gs`. The buffer is taken to be no
longer than the largest `int`, as every Go byte slice is. -/
theorem C3_exact_consumption (fs : List Field) (t : List Nat) (hfs : fs ≠ [])
    (hlen : ((encode fs ++ t).length : Int) ≤ maxInt) :
    parse (encode fs ++ t) = .ret (some fs, t) ∧
      ∀ (gs : List Field) (u : List Nat), gs ≠ [] → t = encode gs ++ u →
        parse t = .ret (some gs, u) := by
  refine ⟨parse_encode_append fs t hfs hlen, ?_⟩
  intro gs u hgs ht
  subst ht
  apply parse_encode_append gs u hgs
  simp only [List.length_append] at hlen ⊢
  push_cast at hlen ⊢
  omega

/-- Witness of C3: the reply `ok`, `v` followed by the first bytes of the next reply. -/
theorem C3_exact_consumption_witness :
    parse (encode [text ("ok"), text ("v")] ++ text ("9\nnot_")) =
      .ret (some [text ("ok"), text ("v")], text ("9\nnot_")) :=
  (C3_exact_consumption [text ("ok"), text ("v")] (text ("9\nnot_")) (by decide) (by decide)).1

/-- C4. `send` equals its reference definition. When some argument has an unsupported type
`send` returns the error `bad arguments` and the socket is untouched (no `Write` call), also
when earlier arguments were valid. Otherwise exactly one `Write` is made, of the reference
encoding `refEncode args`: for each argument in order its decimal byte length, a newline, its
bytes and a newline (each element of a list of text as its own block, booleans as `1`/`0`,
null as the empty string, integers in decimal), followed by one final newline; and `send`
returns what `Write` returned. The reference is written with `Nat.digits` and literal bytes:
it shares no formatting function with the model of `send`. -/
theorem C4_send_eq_reference (sock : Sock) (args : List Value) :
    send sock args =
      if args.all Value.supported then
        (sock.writeErr, { sock with writes := sock.writes ++ [refEncode args] })
      else (some .badArguments, sock) := by
  rw [send_eq, encode_eq_refEncode]

/-- Witness of C4: what the reference encoding is for the request `get`, the integers -12, 0
and 1050, a boolean, null and a list of two texts, byte for byte. -/
theorem C4_send_eq_reference_witness :
    (if [Value.str (text ("get")), .int (-12), .int64 0, .int 1050, .bool true, .nil,
          .strs [text ("a\nb"), []]].all Value.supported then
        ((Sock.delivering []).writeErr,
          { Sock.delivering [] with
            writes := (Sock.delivering []).writes ++
              [refEncode [Value.str (text ("get")), .int (-12), .int64 0, .int 1050, .bool true,
                .nil, .strs [text ("a\nb"), []]]] })
      else (some GoError.badArguments, Sock.delivering [])) =
      (none,
        { Sock.delivering [] with
          writes := [text ("3\nget\n3\n-12\n1\n0\n4\n1050\n1\n1\n0\n\n3\na\nb\n0\n\n\n")] }) :=
  (C4_send_eq_reference (Sock.delivering [])
    [Value.str (text ("get")), .int (-12), .int64 0, .int 1050, .bool true, .nil,
      .strs [text ("a\nb"), []]]).symm.trans (by decide)

/-- C5, as stated, fails. On a read buffer whose first line `x` is not a length, `recv`
returns the nil reply with a nil error, and so does `Do`: no error reaches the caller. -/
theorem C5_recv_returns_nil_error :
    (Client.recv plainLib (Client.connectedTo (text ("x\n")) [])).1 = .ret (none, none) ∧
      (Client.Do plainLib (Client.connectedTo (text ("x\n")) [])
        [.str (text ("get")), .str (text ("k"))]).1 = .ret (none, none) := by
  decide

/-- C5, amended. For every read buffer whose first non-blank line is one that `Atoi` rejects
or reads as a negative number, `recv` returns the nil reply with a nil error, without reading
from the socket and leaving the client as it was; `Do`, once its request is sent, returns the
same nil reply and nil error; it is `ProcessCmd` that reports the nil reply as a bad-response
error. -/
theorem C5_malformed_length (lib : Lib) (c : Client) (crs : List Bool) (line rest : List Nat)
    (hbuf : c.recv_buf = blankLines crs ++ (line ++ nl :: rest)) (hnl : nl ∉ line)
    (hne : line ≠ []) (hcr : line ≠ [cr]) (hbad : badLength line = true) :
    Client.recv lib c = (.ret (none, none), c) ∧
      (∀ args, (send c.sock args).1 = none → (Client.Do lib c args).1 = .ret (none, none)) ∧
      (∀ cmd args, c.connected = true → (send c.sock (.str cmd :: args)).1 = none →
        (Client.ProcessCmd lib c cmd args).1 = .ret (.nil, some (.badResponse []))) := by
  have hnb : ¬ (line.length = 0 ∨ (line.length = 1 ∧ line.head? = some cr)) := by
    rintro (h | ⟨h1, h2⟩)
    · exact hne (List.length_eq_zero.1 h)
    · match line, h1, h2 with
      | [b], _, h2 =>
        simp only [List.head?_cons, Option.some.injEq] at h2
        exact hcr (by rw [h2])
  have hparse : ∀ sock : Sock, parse ({ c with sock := sock } : Client).recv_buf =
      .ret (none, ({ c with sock := sock } : Client).recv_buf) := by
    intro sock
    simp only [hbuf]
    exact parse_malformed crs line rest hnl hnb hbad
  have hrecv : ∀ sock : Sock, Client.recv lib { c with sock := sock } =
      (.ret (none, none), { c with sock := sock }) := fun sock => recv_of_nil lib _ (hparse sock)
  refine ⟨hrecv c.sock, ?_, ?_⟩
  · intro args hsend
    unfold Client.Do
    rcases hs : send c.sock args with ⟨e, sock⟩
    rw [hs] at hsend
    simp only at hsend
    subst hsend
    simp only [hrecv sock]
  · intro cmd args hc hsend
    have h := ProcessCmd_eq_classify lib c cmd args none hc hsend (by rw [hrecv])
    rw [h]
    simp [Client.classify, fields]

/-- Witness of C5 (amended): a blank line, then the line `-1`. -/
theorem C5_malformed_length_witness :
    Client.recv plainLib (Client.connectedTo (text ("\r\n-1\nok\n")) []) =
      (.ret (none, none), Client.connectedTo (text ("\r\n-1\nok\n")) []) :=
  (C5_malformed_length plainLib (Client.connectedTo (text ("\r\n-1\nok\n")) []) [true]
    (text ("-1")) (text ("ok\n")) (by decide) (by decide) (by decide) (by decide) (by decide)).1

/-- C6. Decompress recovers the fields. Let base64 and gzip be any encoders `b64` and `gz`
that the library's decoders invert. For every field list `fs` (empty fields and fields with
newlines included), `UnZip` on the compressed concatenation of the blocks of `fs`, with no
terminating blank line, returns exactly the fields `fs` in order, and `recv` returns them with
a nil error for the reply frame `zip`, `b64 (gz (blocks fs))`. The blocks are taken to be no
longer than the largest `int`, as every Go byte slice is. -/
theorem C6_unzip_recovers_fields (lib : Lib) (b64 gz : List Nat → List Nat) (fs : List Field)
    (hb64 : ∀ x, lib.DecodeString (b64 x) = .ok x) (hgz : ∀ x, lib.gunzip (gz x) = .data x)
    (hlen : ((blocks fs).length : Int) ≤ maxInt) :
    ∃ resp, UnZip lib (gz (blocks fs)) = .ret resp ∧ fields resp = fs ∧
      Client.recvFrame lib (some [text ("zip"), b64 (gz (blocks fs))]) = .ret (resp, none) := by
  have h := UnZip_blocks lib (gz (blocks fs)) fs (hgz _) hlen
  refine ⟨if fs = [] then none else some fs, h, ?_, ?_⟩
  · by_cases hfs : fs = [] <;> simp [hfs, fields]
  · simp [Client.recvFrame, fields, hb64, h]

/-- Witness of C6: the fields `ok`, the empty field and `a\nb`. -/
theorem C6_unzip_recovers_fields_witness :
    ∃ resp, UnZip identityLib (id (blocks [text ("ok"), [], text ("a\nb")])) = .ret resp ∧
      fields resp = [text ("ok"), [], text ("a\nb")] ∧
      Client.recvFrame identityLib
        (some [text ("zip"), id (id (blocks [text ("ok"), [], text ("a\nb")]))]) =
          .ret (resp, none) :=
  C6_unzip_recovers_fields identityLib id id [text ("ok"), [], text ("a\nb")] (fun _ => rfl)
    (fun _ => rfl) (by decide)

/-- C7. Map-shaped replies. For each command among hgetall, hscan, hrscan, multi_hget, scan,
rscan and every reply `ok, k1, v1, ..., kn, vn` (n ≥ 0) that `recv` returns, `ProcessCmd` on
a connected client returns, with a nil error, a map that binds each key to the value of its
last occurrence and binds nothing else. -/
theorem C7_map_reply (lib : Lib) (c : Client) (cmd : Field) (args : List Value)
    (resp : Option (List Field)) (pairs : List (Field × Field)) (hcmd : cmd ∈ mapCmds)
    (hc : c.connected = true) (hsend : (send c.sock (.str cmd :: args)).1 = none)
    (hrecv : (Client.recv lib { c with sock := (send c.sock (.str cmd :: args)).2 }).1 =
      .ret (resp, none))
    (hresp : fields resp = text ("ok") :: flatPairs pairs) :
    ∃ m, (Client.ProcessCmd lib c cmd args).1 = .ret (.strMap m, none) ∧
      ∀ key, m.get key = lastValue pairs key := by
  rw [ProcessCmd_eq_classify lib c cmd args resp hc hsend hrecv, hresp]
  obtain ⟨m, hm, hget⟩ := fillMap_flatPairs pairs []
  refine ⟨m, ?_, ?_⟩
  · have hlen : ¬ ((flatPairs pairs).length = 1) := by
      rw [flatPairs_length]
      omega
    have hnf : ¬ (some (text ("ok")) = some (text ("not_found"))) := by decide
    simp [Client.classify, hlen, hnf, hcmd, hm]
  · intro key
    rw [hget key]
    cases lastValue pairs key <;> rfl

/-- Witness of C7: `hgetall h` answered by `ok, a, 1, b, 2, a, 3`. -/
theorem C7_map_reply_witness :
    ∃ m, (Client.ProcessCmd plainLib
        (Client.connectedTo [] [.data (text ("2\nok\n1\na\n1\n1\n1\nb\n1\n2\n1\na\n1\n3\n\n"))])
        (text ("hgetall")) [.str (text ("h"))]).1 = .ret (.strMap m, none) ∧
      ∀ key, m.get key =
        lastValue [(text ("a"), text ("1")), (text ("b"), text ("2")), (text ("a"), text ("3"))] key :=
  C7_map_reply plainLib
    (Client.connectedTo [] [.data (text ("2\nok\n1\na\n1\n1\n1\nb\n1\n2\n1\na\n1\n3\n\n"))])
    (text ("hgetall")) [.str (text ("h"))]
    (some [text ("ok"), text ("a"), text ("1"), text ("b"), text ("2"), text ("a"), text ("3")])
    [(text ("a"), text ("1")), (text ("b"), text ("2")), (text ("a"), text ("3"))]
    (by decide) (by decide) (by decide) (by decide) (by decide)

/-- C8, as stated, fails for `Client.ProcessCmd`: the reply `not_found`, `x` to `get` gives a
bad-response error, not the no-value result with a nil error. -/
theorem C8_extra_field_is_bad_response :
    (Client.ProcessCmd plainLib
        (Client.connectedTo [] [.data (text ("9\nnot_found\n1\nx\n\n"))])
        (text ("get")) [.str (text ("k"))]).1 =
      .ret (.nil, some (.badResponse [text ("not_found"), text ("x")])) := by
  decide

/-- C8, amended. For every command: `Client.ProcessCmd` on a connected client returns the
no-value result (nil) with a nil error for the reply whose only field is `not_found`, and a
bad-response error when further fields follow that status; `UnixClient.ProcessCmd` returns
nil with a nil error for every reply whose first field is `not_found`, whatever follows. -/
theorem C8_not_found (lib : Lib) (cmd : Field) (args : List Value) (resp : Option (List Field)) :
    (∀ c : Client, c.connected = true → (send c.sock (.str cmd :: args)).1 = none →
      (Client.recv lib { c with sock := (send c.sock (.str cmd :: args)).2 }).1 =
        .ret (resp, none) →
      (fields resp = [text ("not_found")] →
        (Client.ProcessCmd lib c cmd args).1 = .ret (.nil, none)) ∧
      (∀ x rest, fields resp = text ("not_found") :: x :: rest →
        (Client.ProcessCmd lib c cmd args).1 =
          .ret (.nil, some (.badResponse (text ("not_found") :: x :: rest))))) ∧
    (∀ (now : Int) (u : UnixClient) (rest : List Field), u.connected = true →
      (send u.sock (.str cmd :: args)).1 = none →
      (UnixClient.recv
        { u with last_time := now, reuse := false, count := u.count + 1,
                 sock := (send u.sock (.str cmd :: args)).2 }).1 = .ret (resp, none) →
      fields resp = text ("not_found") :: rest →
        (UnixClient.ProcessCmd lib now u cmd args).1 = .ret (.nil, none)) := by
  have hnf : ¬ (text ("not_found") = text ("ok")) := by decide
  refine ⟨?_, ?_⟩
  · intro c hc hsend hrecv
    rw [ProcessCmd_eq_classify lib c cmd args resp hc hsend hrecv]
    refine ⟨?_, ?_⟩
    · intro hresp
      rw [hresp]
      simp [Client.classify]
    · intro x rest hresp
      rw [hresp]
      simp only [Client.classify, List.head?_cons, Option.some.injEq, hnf, and_false, if_false,
        List.length_cons]
      have h1 : ¬ (rest.length + 1 + 1 = 1) := by omega
      simp only [h1, false_and, if_false]
  · intro now u rest hu hsend hrecv hresp
    rw [UnixClient_ProcessCmd_eq_classify lib now u cmd args resp hu hsend hrecv, hresp]
    simp [UnixClient.classify, hnf]

/-- Witness of C8 (amended): `get k` answered by `not_found` on a `Client`, and by
`not_found`, `x` on a `UnixClient`. -/
theorem C8_not_found_witness :
    (Client.ProcessCmd plainLib (Client.connectedTo [] [.data (text ("9\nnot_found\n\n"))])
        (text ("get")) [.str (text ("k"))]).1 = .ret (.nil, none) ∧
      (UnixClient.ProcessCmd plainLib 7
        (UnixClient.connectedTo [] [.data (text ("9\nnot_found\n1\nx\n\n"))])
        (text ("get")) [.str (text ("k"))]).1 = .ret (.nil, none) :=
  ⟨((C8_not_found plainLib (text ("get")) [.str (text ("k"))] (some [text ("not_found")])).1
      (Client.connectedTo [] [.data (text ("9\nnot_found\n\n"))])
      (by decide) (by decide) (by decide)).1 (by decide),
    (C8_not_found plainLib (text ("get")) [.str (text ("k"))]
      (some [text ("not_found"), text ("x")])).2 7
      (UnixClient.connectedTo [] [.data (text ("9\nnot_found\n1\nx\n\n"))]) [text ("x")]
      (by decide) (by decide) (by decide) (by decide)⟩

/-- C9. Boolean classification. On a connected client whose request is sent and whose
`recv` returns the reply `resp` with a nil error: for each command among exists, hexists,
expire, setnx, auth and every two-field reply `ok`, `x`, `ProcessCmd` returns a boolean with
a nil error, true exactly when `x` is `1` (so false when `x` is `0`); and a reply whose status
is neither `ok` nor `not_found` gives a bad-response error and the nil value. -/
theorem C9_bool_reply (lib : Lib) (c : Client) (cmd : Field) (args : List Value)
    (resp : Option (List Field)) (hc : c.connected = true)
    (hsend : (send c.sock (.str cmd :: args)).1 = none)
    (hrecv : (Client.recv lib { c with sock := (send c.sock (.str cmd :: args)).2 }).1 =
      .ret (resp, none)) :
    (∀ x, cmd ∈ boolCmds → fields resp = [text ("ok"), x] →
      (Client.ProcessCmd lib c cmd args).1 = .ret (.bool (decide (x = text ("1"))), none) ∧
        (x = text ("1") → (Client.ProcessCmd lib c cmd args).1 = .ret (.bool true, none)) ∧
        (x = text ("0") → (Client.ProcessCmd lib c cmd args).1 = .ret (.bool false, none))) ∧
    (∀ status rest, fields resp = status :: rest → status ≠ text ("ok") →
      status ≠ text ("not_found") →
      (Client.ProcessCmd lib c cmd args).1 = .ret (.nil, some (.badResponse (status :: rest)))) := by
  rw [ProcessCmd_eq_classify lib c cmd args resp hc hsend hrecv]
  refine ⟨?_, ?_⟩
  · intro x hcmd hresp
    have hmain : (Client.classify
        (Client.recv lib { c with sock := (send c.sock (.str cmd :: args)).2 }).2 cmd
        (fields resp)).1 = .ret (.bool (decide (x = text ("1"))), none) := by
      rw [hresp]
      have hns := boolCmds_not_set cmd hcmd
      by_cases hx : x = text ("1") <;> simp [Client.classify, okPair, hns, hcmd, hx]
    refine ⟨hmain, ?_, ?_⟩
    · intro hx
      rw [hmain, hx]
      rfl
    · intro hx
      rw [hmain, hx]
      rfl
  · intro status rest hresp hok hnf
    rw [hresp]
    simp [Client.classify, hok, hnf]

/-- Witness of C9: `exists k` answered by `ok`, `1`. -/
theorem C9_bool_reply_witness :
    (Client.ProcessCmd plainLib (Client.connectedTo [] [.data (text ("2\nok\n1\n1\n\n"))])
        (text ("exists")) [.str (text ("k"))]).1 = .ret (.bool true, none) :=
  ((C9_bool_reply plainLib (Client.connectedTo [] [.data (text ("2\nok\n1\n1\n\n"))])
    (text ("exists")) [.str (text ("k"))] (some [text ("ok"), text ("1")])
    (by decide) (by decide) (by decide)).1 (text ("1")) (by decide) (by decide)).2.1 rfl

/-- C10: the code panics where the claim says it returns. `Client.ProcessCmd` panics (index
out of range at `data[i+1]`) on the reply `ok, a, b, c` to `hgetall`, and (index out of range
at `resp[1]` in `recv`) on the reply whose only field is `zip`; `UnixClient.ProcessCmd` panics
(index out of range at `resp[0]`) when `parse` rejects the length line `x`. -/
theorem C10_process_cmd_panics :
    (Client.ProcessCmd plainLib
        (Client.connectedTo [] [.data (text ("2\nok\n1\na\n1\nb\n1\nc\n\n"))])
        (text ("hgetall")) [.str (text ("h"))]).1 = .panic ∧
      (Client.ProcessCmd plainLib (Client.connectedTo [] [.data (text ("3\nzip\n\n"))])
        (text ("get")) [.str (text ("k"))]).1 = .panic ∧
      (UnixClient.ProcessCmd plainLib 7 (UnixClient.connectedTo [] [.data (text ("x\n"))])
        (text ("get")) [.str (text ("k"))]).1 = .panic := by
  decide

/-- C11, as stated, fails. The reply `error`, `connection` to `get` is a well-formed frame
received without I/O error; `ProcessCmd` returns a bad-response error for it, and when it
returns the client is closed and one `RetryConnect` has been started. -/
theorem C11_connection_text_closes :
    (Client.ProcessCmd plainLib
        (Client.connectedTo [] [.data (text ("5\nerror\n10\nconnection\n\n"))])
        (text ("get")) [.str (text ("k"))]).1 =
      .ret (.nil, some (.badResponse [text ("error"), text ("connection")])) ∧
    (Client.ProcessCmd plainLib
        (Client.connectedTo [] [.data (text ("5\nerror\n10\nconnection\n\n"))])
        (text ("get")) [.str (text ("k"))]).2.connected = false ∧
    (Client.ProcessCmd plainLib
        (Client.connectedTo [] [.data (text ("5\nerror\n10\nconnection\n\n"))])
        (text ("get")) [.str (text ("k"))]).2.retryStarted = 1 := by
  decide

/-- C11, amended. Whenever `ProcessCmd` on a connected client sends its request, receives
the reply `resp` without I/O error and returns a bad-response error, the error carries the
reply, and: unless the reply has exactly two fields of which the second contains the text
`connection`, the client is still connected when `ProcessCmd` returns and no `RetryConnect`
has been started; for a two-field reply whose second field contains `connection` the client
has been closed and one `RetryConnect` started. -/
theorem C11_bad_response_state (lib : Lib) (c : Client) (cmd : Field) (args : List Value)
    (resp : Option (List Field)) (r : List Field) (hc : c.connected = true)
    (hsend : (send c.sock (.str cmd :: args)).1 = none)
    (hrecv : (Client.recv lib { c with sock := (send c.sock (.str cmd :: args)).2 }).1 =
      .ret (resp, none))
    (hbad : (Client.ProcessCmd lib c cmd args).1 = .ret (.nil, some (.badResponse r))) :
    r = fields resp ∧
      (¬ ((fields resp).length = 2 ∧
          contains ((fields resp).getD 1 []) (text ("connection")) = true) →
        (Client.ProcessCmd lib c cmd args).2.connected = true ∧
          (Client.ProcessCmd lib c cmd args).2.retryStarted = c.retryStarted) ∧
      (((fields resp).length = 2 ∧
          contains ((fields resp).getD 1 []) (text ("connection")) = true) →
        (Client.ProcessCmd lib c cmd args).2.connected = false ∧
          (Client.ProcessCmd lib c cmd args).2.retryStarted = c.retryStarted + 1) := by
  rw [ProcessCmd_eq_classify lib c cmd args resp hc hsend hrecv] at hbad ⊢
  obtain ⟨hr, hstate⟩ := classify_badResponse _ cmd (fields resp) r hbad
  obtain ⟨h1, h2, -⟩ := recv_keeps_state lib { c with sock := (send c.sock (.str cmd :: args)).2 }
  simp only at h1 h2
  refine ⟨hr, ?_, ?_⟩
  · intro hn
    rw [hstate, if_neg hn]
    exact ⟨by rw [h1, hc], h2⟩
  · intro hy
    rw [hstate, if_pos hy]
    exact ⟨rfl, by simp [Client.Close, h2]⟩

/-- Witness of C11 (amended): `get k` answered by `error`, `not a number`. -/
theorem C11_bad_response_state_witness :
    (Client.ProcessCmd plainLib
        (Client.connectedTo [] [.data (text ("5\nerror\n12\nnot a number\n\n"))])
        (text ("get")) [.str (text ("k"))]).2.connected = true ∧
      (Client.ProcessCmd plainLib
        (Client.connectedTo [] [.data (text ("5\nerror\n12\nnot a number\n\n"))])
        (text ("get")) [.str (text ("k"))]).2.retryStarted =
        (Client.connectedTo [] [.data (text ("5\nerror\n12\nnot a number\n\n"))]).retryStarted :=
  (C11_bad_response_state plainLib
    (Client.connectedTo [] [.data (text ("5\nerror\n12\nnot a number\n\n"))])
    (text ("get")) [.str (text ("k"))] (some [text ("error"), text ("not a number")])
    [text ("error"), text ("not a number")] (by decide) (by decide) (by decide)
    (by decide)).2.1 (by decide)

/-- C17. A malformed length poisons the read buffer. When `parse` rejects a length line
(it returns nil) the read buffer is unchanged. Consequently, whatever the socket holds or
will deliver (`sock`): `recv` returns the nil reply with a nil error and leaves the client,
its buffer included, as it was, so that `parse` rejects the buffer again; any number of later
`recv` calls end the same way; and `ProcessCmd`, once its request is sent, returns the
bad-response error of the empty reply and leaves the buffer unchanged. -/
theorem C17_malformed_length_poisons (lib : Lib) (c : Client) (b : List Nat)
    (h : parse c.recv_buf = .ret (none, b)) :
    b = c.recv_buf ∧
      (∀ sock : Sock,
        Client.recv lib { c with sock := sock } = (.ret (none, none), { c with sock := sock }) ∧
        parse (Client.recv lib { c with sock := sock }).2.recv_buf = .ret (none, c.recv_buf)) ∧
      (∀ n : Nat,
        Client.recv lib ((fun x => (Client.recv lib x).2)^[n] c) = (.ret (none, none), c)) ∧
      (∀ cmd args, c.connected = true → (send c.sock (.str cmd :: args)).1 = none →
        (Client.ProcessCmd lib c cmd args).1 = .ret (.nil, some (.badResponse [])) ∧
          (Client.ProcessCmd lib c cmd args).2.recv_buf = c.recv_buf) := by
  have hb := parse_nil_keeps_buffer _ _ h
  subst hb
  have hrecv : ∀ sock : Sock, Client.recv lib { c with sock := sock } =
      (.ret (none, none), { c with sock := sock }) := fun sock => recv_of_nil lib _ h
  have hself : Client.recv lib c = (.ret (none, none), c) := recv_of_nil lib c h
  refine ⟨rfl, ?_, ?_, ?_⟩
  · intro sock
    refine ⟨hrecv sock, ?_⟩
    rw [hrecv sock]
    exact h
  · intro n
    have hiter : (fun x => (Client.recv lib x).2)^[n] c = c := by
      induction n with
      | zero => rfl
      | succ n ih =>
        rw [Function.iterate_succ_apply']
        rw [ih, hself]
    rw [hiter, hself]
  · intro cmd args hc hsend
    have hp := ProcessCmd_eq_classify lib c cmd args none hc hsend (by rw [hrecv])
    rw [hp, hrecv]
    simp [Client.classify, fields]

/-- Witness of C17: the buffer `2`, `ok`, then the line `1x` where a length is due. -/
theorem C17_malformed_length_poisons_witness :
    Client.recv plainLib
        { Client.connectedTo (text ("2\nok\n1x\n")) [] with
          sock := Sock.delivering [.data (text ("2\nok\n\n"))] } =
      (.ret (none, none),
        { Client.connectedTo (text ("2\nok\n1x\n")) [] with
          sock := Sock.delivering [.data (text ("2\nok\n\n"))] }) :=
  ((C17_malformed_length_poisons plainLib (Client.connectedTo (text ("2\nok\n1x\n")) [])
    (text ("2\nok\n1x\n")) (by decide)).2.1 (Sock.delivering [.data (text ("2\nok\n\n"))])).1

/-- C12, as stated, fails. Five triples over three workers give chunks of 1, 1 and 3
triples: the sizes sum to 5, but the largest chunk is two larger than the smallest. -/
theorem C12_remainder_goes_to_last_chunk :
    chunkSizes (List.replicate 5 (HashData.mk (text ("h")) (text ("k")) (text ("v")))) 3 =
      [1, 1, 3] := by
  decide

/-- C12, amended. For every list of N triples and every worker count w ≥ 1, no slice
expression of `MultiHashSet` is out of range, the w chunks have sizes that sum to N, each of
the first w - 1 chunks has `N / w` triples, and the last chunk has `N / w + N % w`: the
largest chunk exceeds the smallest by the remainder `N % w`. -/
theorem C12_chunk_sizes (parts : List HashData) (w : Nat) (hw : 1 ≤ w) :
    (chunkSizes parts w).sum = parts.length ∧
      (∀ i, 1 ≤ i → i < w → (chunkOf parts w i).map List.length = some (parts.length / w)) ∧
      (chunkOf parts w w).map List.length = some (parts.length / w + parts.length % w) ∧
      chunkSizes parts w =
        List.replicate (w - 1) (parts.length / w) ++ [parts.length / w + parts.length % w] :=
  ⟨chunkSizes_sum parts w hw, fun i hi hiw => chunkOf_length_inner parts w i hi hiw,
    chunkOf_length_last parts w hw, chunkSizes_eq parts w hw⟩

/-- Witness of C12 (amended): five triples over three workers. -/
theorem C12_chunk_sizes_witness :
    (chunkSizes (List.replicate 5 (HashData.mk (text ("h")) (text ("k")) (text ("v")))) 3).sum =
      (List.replicate 5 (HashData.mk (text ("h")) (text ("k")) (text ("v")))).length :=
  (C12_chunk_sizes (List.replicate 5 (HashData.mk (text ("h")) (text ("k")) (text ("v")))) 3
    (by decide)).1

/-- C13: the code returns neither the error nor the results. With one triple and one worker:
when the reply to `hset` is `error`, `bad`, the worker records a bad-response error in its
own `errs`, yet `MultiHashSet` returns the empty `results` and a nil error; when the reply is
`ok`, `1`, the worker records the result in its own `results`, yet `MultiHashSet` returns
the empty `results`, with no entry for the triple. -/
theorem C13_multi_hash_set_drops_errors_and_results :
    (conHelper plainLib [HashData.mk (text ("h")) (text ("k")) (text ("v"))]
        (Client.connectedTo [] [.data (text ("5\nerror\n3\nbad\n\n"))]) [] []).1 =
      .ret ([], [.badResponse [text ("error"), text ("bad")]]) ∧
    Client.MultiHashSet plainLib
        (Client.connectedTo [] [.data (text ("5\nerror\n3\nbad\n\n"))])
        (fun _ => .ok (Sock.delivering []))
        [HashData.mk (text ("h")) (text ("k")) (text ("v"))] 1 = .ret (some [], none) ∧
    (conHelper plainLib [HashData.mk (text ("h")) (text ("k")) (text ("v"))]
        (Client.connectedTo [] [.data (text ("2\nok\n1\n1\n\n"))]) [] []).1 =
      .ret ([.str (text ("1"))], []) ∧
    Client.MultiHashSet plainLib
        (Client.connectedTo [] [.data (text ("2\nok\n1\n1\n\n"))])
        (fun _ => .ok (Sock.delivering []))
        [HashData.mk (text ("h")) (text ("k")) (text ("v"))] 1 = .ret (some [], none) := by
  decide

/-- C14. The recycle sweep is a stable filter. For every pool and every clock reading, the
clock reading and the members' last-activity times being Unix times (between 0 and the
largest `int64`): one pass of the sweep indexes nothing out of range and leaves the pool equal
to the sub-list of the members that are connected and whose age `now - last_time` is at most
the idle timeout, in their original order; `Close` has been called on every other member,
which leaves it with `connected = false`; and, the timeout not being negative (it is 30 in
every pool `SSDBUnixInit` makes), a member that is connected and was active at `now` is
retained. -/
theorem C14_recycle_is_stable_filter (db : SSDBUnix) (now : Int)
    (hnow : 0 ≤ now ∧ now ≤ maxInt)
    (hpool : ∀ v ∈ db.connect_pool, 0 ≤ v.last_time ∧ v.last_time ≤ maxInt) :
    db.Recycle now =
        .ret ({ db with connect_pool := db.connect_pool.filter (alive now db.timeout) },
          (db.connect_pool.filter (fun v => !alive now db.timeout v)).map UnixClient.Close) ∧
      (∀ v ∈ (db.connect_pool.filter (fun v => !alive now db.timeout v)).map UnixClient.Close,
        v.connected = false) ∧
      (0 ≤ db.timeout → ∀ v ∈ db.connect_pool, v.connected = true → v.last_time = now →
        v ∈ db.connect_pool.filter (alive now db.timeout)) := by
  have hkeep : db.connect_pool.filter (fun v => !expired now db.timeout v) =
      db.connect_pool.filter (alive now db.timeout) :=
    List.filter_congr (fun v hv => expired_eq now db.timeout v hnow (hpool v hv))
  have hdrop : db.connect_pool.filter (expired now db.timeout) =
      db.connect_pool.filter (fun v => !alive now db.timeout v) :=
    List.filter_congr (fun v hv => by
      rw [← expired_eq now db.timeout v hnow (hpool v hv), Bool.not_not])
  refine ⟨?_, ?_, ?_⟩
  · rw [Recycle_eq, hkeep, hdrop]
  · intro v hv
    obtain ⟨u, -, rfl⟩ := List.mem_map.1 hv
    rfl
  · intro ht v hv hc hlast
    rw [List.mem_filter]
    refine ⟨hv, ?_⟩
    have : now - v.last_time ≤ db.timeout := by rw [hlast]; omega
    simp [alive, hc, this]

/-- Witness of C14: a pool of three members at the clock reading 100 with the timeout 30: the
first idle since 10, the second active at 100, the third disconnected. -/
theorem C14_recycle_is_stable_filter_witness :
    ({ SSDBUnixInit (text ("/tmp/ssdb.sock")) 0 100 with
        connect_pool :=
          [{ UnixClient.connectedTo [] [] with last_time := 10 },
           { UnixClient.connectedTo [] [] with last_time := 100 },
           { UnixClient.connectedTo [] [] with last_time := 90, connected := false }]
      } : SSDBUnix).Recycle 100 =
      .ret ({ SSDBUnixInit (text ("/tmp/ssdb.sock")) 0 100 with
          connect_pool := [{ UnixClient.connectedTo [] [] with last_time := 100 }] },
        [({ UnixClient.connectedTo [] [] with last_time := 10 } : UnixClient).Close,
         ({ UnixClient.connectedTo [] [] with last_time := 90, connected := false } :
            UnixClient).Close]) :=
  (C14_recycle_is_stable_filter
    { SSDBUnixInit (text ("/tmp/ssdb.sock")) 0 100 with
        connect_pool :=
          [{ UnixClient.connectedTo [] [] with last_time := 10 },
           { UnixClient.connectedTo [] [] with last_time := 100 },
           { UnixClient.connectedTo [] [] with last_time := 90, connected := false }] }
    100 (by decide) (by decide)).1

/-- C15, as stated, fails. From the nil global pool, 101 calls of `UnixConnect` whose dial
succeeds, with no sweep between them, leave 101 members in a pool whose `max_connect` is
100. -/
theorem C15_pool_exceeds_max_connect :
    poolSize (poolRun plainLib (text ("/tmp/ssdb.sock")) 0 none
        (List.replicate 101 (.acquire [] 0 (Sock.delivering [])))) = 101 ∧
      (poolRun plainLib (text ("/tmp/ssdb.sock")) 0 none
        (List.replicate 101 (.acquire [] 0 (Sock.delivering [])))).map SSDBUnix.max_connect =
        some 100 := by
  refine ⟨?_, ?_⟩
  · rw [(poolRun_acquire plainLib (text ("/tmp/ssdb.sock")) 0 0 (Sock.delivering []) 101 none).1]
    rfl
  · rw [(poolRun_acquire plainLib (text ("/tmp/ssdb.sock")) 0 0 (Sock.delivering []) 100 none).2]
    rfl

/-- C15, amended. In every state reachable from the nil global pool by any sequence of
acquisitions (calls of `UnixConnect` whose dial succeeds) and sweeps, the number of members
is at most the number of acquisitions made; `max_connect` is not consulted, and n
acquisitions without password and without a sweep between them leave n members, whatever n
is. -/
theorem C15_pool_size (lib : Lib) (ip : Field) (port : Int) (es : List PoolEvent) :
    poolSize (poolRun lib ip port none es) ≤ acquisitions es ∧
      ∀ (n : Nat) (now : Int) (sock : Sock),
        poolSize (poolRun lib ip port none (List.replicate n (.acquire [] now sock))) = n := by
  refine ⟨?_, ?_⟩
  · have h := poolRun_size lib ip port es none
    simpa [poolSize] using h
  · intro n now sock
    have h := (poolRun_acquire lib ip port now sock n none).1
    simpa [poolSize] using h

/-- C16: two `RetryConnect` loops run for one connection. On a `Client` with a password:
after a transient failure starts task 0, task 0 enters the loop, its dial succeeds and the
authentication that `Connect` then makes ends in `io.EOF` (which closes the client and starts
task 1 after `Connect` has cleared the flag `retry`), task 1 passes the guard: two tasks are
in the loop, and each of them dials. On a `UnixClient`, whose `RetryConnect` has no guard,
two transient failures suffice. -/
theorem C16_two_retry_loops :
    loopsRunning (Conn.run plainLib
        ⟨{ Client.connectedTo [] [] with Password := text ("pw") }, [], []⟩
        [.failure .eof, .enter 0, .iterate 0 (.ok (Sock.delivering [.err .eof])),
          .enter 1]).tasks = 2 ∧
      (Conn.run plainLib
        ⟨{ Client.connectedTo [] [] with Password := text ("pw") }, [], []⟩
        [.failure .eof, .enter 0, .iterate 0 (.ok (Sock.delivering [.err .eof])), .enter 1,
          .iterate 0 (.error (.io (text ("dial tcp: connection refused")))),
          .iterate 1 (.error (.io (text ("dial tcp: connection refused"))))]).dialed =
        [0, 0, 1] ∧
      loopsRunning (UnixConn.run plainLib ⟨UnixClient.connectedTo [] [], [], []⟩
        [.failure .eof, .failure .eof, .enter 0, .enter 1]).tasks = 2 ∧
      (UnixConn.run plainLib ⟨UnixClient.connectedTo [] [], [], []⟩
        [.failure .eof, .failure .eof, .enter 0, .enter 1,
          .iterate 0 7 (.error (.io (text ("dial unix: connection refused")))),
          .iterate 1 7 (.error (.io (text ("dial unix: connection refused"))))]).dialed =
        [0, 1] := by
  decide

end Ssdb
